import Mathlib

/-!
Formal model of the math-captcha library (a Node.js CAPTCHA generator that
builds random arithmetic expressions, evaluates them, renders them as LaTeX
and manages per-key captcha records).

The JavaScript source is embedded shallowly:
* JS numbers are modelled as rationals (`ℚ`); the library's own value pools
  and evaluation stay within exact rational arithmetic for the claims below.
* The expression "stack stored in an array" is a `List Token`, popped from
  the end (`List.getLast?` / `List.dropLast`), exactly as `Array.prototype.pop`.
* `Math.random`-driven draws are modelled by an explicit stream of naturals;
  `randInt n m` returns `n + stream i % (m - n + 1)`, which ranges over the
  same interval `[n, m]` the JS helper produces (for `n ≤ m`), and theorems
  quantify over every stream, i.e. over every possible sequence of draws.
* JS strings are modelled as `List Char`.
* The recursive consumers `solve` and `latex` are written with an explicit
  fuel argument; any fuel at least the stack length is enough (their
  recursion consumes at least one token per level).
-/

namespace MathCaptcha

/-- One operator of the registry, mirroring the constructor
`function Operator(precedence, associative, doGroup, latex, arity, op)`.
The evaluation function takes the argument list in the pop order that
`solve` builds (JS applies `op.apply(null, args)`). -/
structure Operator where
  precedence : Nat
  associative : Bool
  doGroup : Bool
  latex : String
  arity : Nat
  op : List ℚ → ℚ

/-- A stack entry: either a numeric literal or an operator reference
(the JS code distinguishes them with `instanceof Operator`). -/
inductive Token where
  | num (q : ℚ)
  | op (o : Operator)

/-- `$1 + $2`, precedence 5, associative, grouping. -/
def addOp : Operator :=
  ⟨5, true, true, "$1 + $2", 2, fun args => args.getD 0 0 + args.getD 1 0⟩

/-- `$1 - $2`, precedence 5, non-associative, grouping. -/
def subOp : Operator :=
  ⟨5, false, true, "$1 - $2", 2, fun args => args.getD 0 0 - args.getD 1 0⟩

/-- `$1 \times $2`, precedence 3, associative, grouping. -/
def mulOp : Operator :=
  ⟨3, true, true, "$1 \\times $2", 2, fun args => args.getD 0 0 * args.getD 1 0⟩

/-- `\frac{$1}{$2}`, precedence 3, non-associative, no grouping.
(The braces of the template are written with character escapes.) -/
def divOp : Operator :=
  ⟨3, false, false, "\\frac\x7b$1\x7d\x7b$2\x7d", 2, fun args => args.getD 0 0 / args.getD 1 0⟩

/-- The four operators pushed by the `captcha` constructor, in source order. -/
def defaultOperators : List Operator := [addOp, subOp, mulOp, divOp]

/-- Placeholder used for out-of-range registry indexing; a nonempty registry
never selects it (JS would produce `undefined` there). -/
def dummyOp : Operator := ⟨0, false, false, "", 0, fun _ => 0⟩

/-- The random source: a stream of arbitrary naturals and a position.
Quantifying over all streams covers every possible sequence of draws. -/
structure Rng where
  stream : Nat → Nat
  pos : Nat

/-- `randInt(n, m) = n + Math.floor(Math.random() * (m - n + 1))`:
a draw in `[n, m]` (for `n ≤ m`), consuming one stream element. -/
def randInt (r : Rng) (n m : Nat) : Nat × Rng :=
  (n + r.stream r.pos % (m + 1 - n), ⟨r.stream, r.pos + 1⟩)

/-- The `while (valCount < op.arity)` body: push `need` random values drawn
from `values` (JS `values[this.randInt(0, values.length-1)]`), in order. -/
def pushVals (values : List ℚ) : Nat → Rng → List Token × Rng
  | 0, r => ([], r)
  | need + 1, r =>
    let p := randInt r 0 (values.length - 1)
    let rest := pushVals values need p.2
    (Token.num (values.getD p.1 0) :: rest.1, rest.2)

/-- The `for (i = 0; i < ops; ++i)` loop of `generateExpression`: pick a
random operator, top the pending-value count up to its arity, push the
operator, and decrement the count by one (`valCount -= 1` in the source). -/
def genLoop (operators : List Operator) (values : List ℚ) :
    Nat → Rng → List Token → Int → List Token
  | 0, _, rtn, _ => rtn
  | n + 1, r, rtn, valCount =>
    let pick := randInt r 0 (operators.length - 1)
    let o := operators.getD pick.1 dummyOp
    let need : Nat := ((o.arity : Int) - valCount).toNat
    let pushed := pushVals values need pick.2
    let topped : Int := if valCount < (o.arity : Int) then (o.arity : Int) else valCount
    genLoop operators values n pushed.2 (rtn ++ pushed.1 ++ [Token.op o]) (topped - 1)

/-- `generateExpression(minOps, maxOps, values)`: draw the operator count
uniformly from `[minOps, maxOps]` and run the loop starting from an empty
stack and `valCount = 0`. -/
def generateExpression (operators : List Operator) (minOps maxOps : Nat)
    (values : List ℚ) (r : Rng) : List Token :=
  let d := randInt r minOps maxOps
  genLoop operators values d.1 d.2 [] 0

/-- The `for (i = 0; i < exp.arity; ++i) args.push(this.solve(expression))`
loop: run the recursive evaluator `f` `k` times, threading the shrinking
stack and collecting the results in pop order. -/
def solveArgs (f : List Token → Option (ℚ × List Token)) :
    Nat → List Token → Option (List ℚ × List Token)
  | 0, s => some ([], s)
  | k + 1, s =>
    match f s with
    | none => none
    | some (v, s1) =>
      match solveArgs f k s1 with
      | none => none
      | some (vs, s2) => some (v :: vs, s2)

/-- `solve(expression)`: pop one token from the end; a literal is returned
as-is; an operator of arity `k` triggers `k` recursive calls whose results
are collected in pop order and passed to the operator's function. -/
def solve : Nat → List Token → Option (ℚ × List Token)
  | 0, _ => none
  | fuel + 1, s =>
    match s.getLast? with
    | none => none
    | some (Token.num q) => some (q, s.dropLast)
    | some (Token.op o) =>
      match solveArgs (solve fuel) o.arity s.dropLast with
      | none => none
      | some (args, rest) => some (o.op args, rest)

/-- The arity-indexed loop of `solve`, with the fuel made explicit. -/
def solveN (fuel k : Nat) (s : List Token) : Option (List ℚ × List Token) :=
  solveArgs (solve fuel) k s

/-- Number of operand slots a token consumes when it is popped
(a literal consumes none, an operator consumes its arity). -/
def tokArity : Token → Nat
  | Token.num _ => 0
  | Token.op o => o.arity

/-- Scan the tokens in consumption (pop) order, tracking how many completed
sub-expressions are still pending. Consuming a token when nothing is pending
is an unconsumed leftover; ending with pending slots is an underflow; both
make the scan fail. -/
def consumeOk : List Token → Nat → Bool
  | [], pending => pending == 0
  | t :: rest, pending =>
    if pending == 0 then false
    else consumeOk rest (pending - 1 + tokArity t)

/-- A stack is well-formed when, consumed token by token from the end, the
pending-slot count stays positive until the stack is exhausted and exactly
one value results. -/
def wellFormedB (s : List Token) : Bool := consumeOk s.reverse 1

/-! ### Strings and template substitution

JS strings are modelled as `List Char`.  `substitute` performs
`latex.replace(new RegExp('\\$' + (i+1)), subs[i])` for `i = 0, 1, ...`:
a non-global regex replace, i.e. it rewrites only the first occurrence of
the literal pattern `$1`, `$2`, ... -/

/-- Does `pat` occur literally at the head of `s`? -/
def matchAt : List Char → List Char → Bool
  | [], _ => true
  | _ :: _, [] => false
  | p :: ps, c :: cs => p == c && matchAt ps cs

/-- `String.prototype.replace` with a non-global literal regex: replace the
first occurrence of `pat` (if any) by `rep`, leaving the rest unchanged. -/
def replaceOnceL (pat rep : List Char) : List Char → List Char
  | [] => if matchAt pat [] then rep else []
  | c :: cs =>
    if matchAt pat (c :: cs) then rep ++ (c :: cs).drop pat.length
    else c :: replaceOnceL pat rep cs

/-- Decimal digits used for printing naturals. -/
def digitCharL (d : Nat) : Char :=
  (['0', '1', '2', '3', '4', '5', '6', '7', '8', '9']).getD d '0'

/-- Decimal printing of a natural number, with enough fuel to exhaust the
digits (one division by ten per step). -/
def natStrGo : Nat → Nat → List Char
  | 0, _ => []
  | fuel + 1, n =>
    if n < 10 then [digitCharL n]
    else natStrGo fuel (n / 10) ++ [digitCharL (n % 10)]

/-- Decimal printing of a natural number. -/
def natStrL (n : Nat) : List Char := natStrGo (n + 1) n

/-- Printing of a stack literal (`exp + ''` in JS).  It matches JS number
printing exactly on integer values, which is what the library's value pools
contain; a non-integral rational is printed as a fraction. -/
def numStrL (q : ℚ) : List Char :=
  (if q.num < 0 then ['-'] else []) ++ natStrL q.num.natAbs ++
    (if q.den == 1 then [] else '/' :: natStrL q.den)

/-- The placeholder `$i`. -/
def placeholder (i : Nat) : List Char := '$' :: natStrL i

/-- The inner loop of `substitute`: fold the replacements for
`$i, $(i+1), ...` over the template, first occurrence only each time. -/
def substituteGo : List Char → List (List Char) → Nat → List Char
  | t, [], _ => t
  | t, sub :: rest, i => substituteGo (replaceOnceL (placeholder i) sub t) rest (i + 1)

/-- `substitute(latex, subs)`: replace `$1` by `subs[0]`, then `$2` by
`subs[1]`, and so on, each time only the first occurrence. -/
def substituteL (template : List Char) (subs : List (List Char)) : List Char :=
  substituteGo template subs 1

/-- String-typed wrapper of `substituteL`, the form the source exposes. -/
def substitute (template : String) (subs : List String) : String :=
  ⟨substituteL template.data (subs.map String.data)⟩

/-! ### The LaTeX renderer -/

/-- `precedence(exp)`: operators carry their own precedence, anything else
(a number, or `undefined` when peeking an empty stack) has precedence 0. -/
def precedence : Option Token → Nat
  | some (Token.op o) => o.precedence
  | _ => 0

/-- The grouping test of `latex`, verbatim from
`exp.doGroup && i > 0 && (tp != 0) && (tp > exp.precedence || !exp.associative)`. -/
def groupCond (o : Operator) (i tp : Nat) : Bool :=
  o.doGroup && decide (0 < i) && decide (tp ≠ 0) &&
    (decide (o.precedence < tp) || !o.associative)

/-- The operand loop of `latex`: for position `i`, peek the precedence `tp`
of the token about to be consumed, render the operand with the recursive
renderer `f`, and parenthesize it exactly when `groupCond` holds. -/
def latexArgsWith (f : List Token → Option (List Char × List Token)) (o : Operator) :
    Nat → Nat → List Token → Option (List (List Char) × List Token)
  | _, 0, s => some ([], s)
  | i, k + 1, s =>
    let tp := precedence s.getLast?
    match f s with
    | none => none
    | some (str, s1) =>
      let str1 := if groupCond o i tp then '(' :: str ++ [')'] else str
      match latexArgsWith f o (i + 1) k s1 with
      | none => none
      | some (args, s2) => some (str1 :: args, s2)

/-- `latex(expression)`: pop one token; a literal is printed; an operator
renders its `arity` operands recursively (peeking the next token's
precedence first to decide grouping) and substitutes them into its
template.  The produced JS string is a `List Char`. -/
def latex : Nat → List Token → Option (List Char × List Token)
  | 0, _ => none
  | fuel + 1, s =>
    match s.getLast? with
    | none => none
    | some (Token.num q) => some (numStrL q, s.dropLast)
    | some (Token.op o) =>
      match latexArgsWith (latex fuel) o 0 o.arity s.dropLast with
      | none => none
      | some (args, rest) => some (substituteL o.latex.data args, rest)

/-- The operand loop of `latex`, with the fuel made explicit. -/
def latexArgs (fuel : Nat) (o : Operator) (i k : Nat) (s : List Token) :
    Option (List (List Char) × List Token) :=
  latexArgsWith (latex fuel) o i k s

/-! ### The captcha lifecycle manager

The manager's `this.captchas` map is a function from keys to optional
records: both a missing key and a key that was reset to `undefined`
(which is what deletion does in the source) behave as absent, matching the
truthiness tests `if (this.captchas[key])`.  Timers are modelled by the
`handler` field: `none` before `setTimeout` ran, `some d` once a timer of
`d` milliseconds is armed; deleting the record models `clearTimeout` plus
removal. -/

/-- The options relevant to the modelled operations. -/
structure Options where
  path : String
  cleanupTime : Nat

/-- The record stored in `this.captchas[key]`. -/
structure Record where
  exp : List Token
  latexSrc : String
  answer : ℚ
  file : String
  handler : Option Nat

/-- The key-to-record map. -/
abbrev CState := String → Option Record

/-- Errors reported by a pipeline stage (abstract). -/
abbrev Err := String

/-- `getImage(key)`: return the stored image path of the record, or `null`. -/
def getImage (st : CState) (key : String) : Option String :=
  match st key with
  | some rec => some rec.file
  | none => none

/-- `Math.round`: round to the nearest integer, halves toward positive
infinity. -/
def jsRound (q : ℚ) : ℤ := ⌊q + 1 / 2⌋

/-- `check(key, answer, places)`: with `shift = 10^places`, compare
`Math.round(stored * shift)` against `Math.round(answer * shift)`;
`false` for a key with no live record. -/
def check (st : CState) (key : String) (answer : ℚ) (places : Nat) : Bool :=
  match st key with
  | some rec => jsRound (rec.answer * 10 ^ places) == jsRound (answer * 10 ^ places)
  | none => false

/-- `cleanup(key)`: if a record is live, cancel its timer and reset the
entry (the `rm` of the rendered files is outside the state model); for
other keys do nothing. -/
def cleanup (st : CState) (key : String) : CState :=
  match st key with
  | some _ => fun k => if k = key then none else st k
  | none => st

/-- The record created at the top of `generate`, before any pipeline stage
has run: no timer is armed yet. -/
def pendingRecord (exp : List Token) (latexSrc : String) (answer : ℚ)
    (file : String) : Record :=
  ⟨exp, latexSrc, answer, file, none⟩

/-- The insertion `this.captchas[key] = {exp, latex, answer, file}` that
`generate` performs before writing the source file. -/
def generateInsert (st : CState) (key : String) (rec : Record) : CState :=
  fun k => if k = key then some rec else st k

/-- Outcome reported through the `success`/`failure` callbacks. -/
inductive GenResult where
  | success (key : String)
  | failure (e : Err)

/-- The outcomes of the three external stages of one `generate` call:
`fs.writeFile`, the `latex` invocation and the `dvipng` invocation.
`none` is a successful stage, `some e` a failing one. -/
structure PipelineIO where
  writeErr : Option Err
  texErr : Option Err
  dvipngErr : Option Err

/-- The first stage error hit by the sequential pipeline, if any. -/
def firstErr (io : PipelineIO) : Option Err :=
  match io.writeErr with
  | some e => some e
  | none =>
    match io.texErr with
    | some e => some e
    | none => io.dvipngErr

/-- The callback chain of `generate` after the record was inserted: each
failing stage resets the record and reports `failure(err)`; after all three
stages the timer `setTimeout(cleanup, cleanupTime * 1000)` is armed on the
record and `success(key)` is reported. -/
def generateRun (st : CState) (opts : Options) (key : String) (rec : Record)
    (io : PipelineIO) : CState × GenResult :=
  let st1 := generateInsert st key rec
  match io.writeErr with
  | some e => (fun k => if k = key then none else st1 k, GenResult.failure e)
  | none =>
    match io.texErr with
    | some e => (fun k => if k = key then none else st1 k, GenResult.failure e)
    | none =>
      match io.dvipngErr with
      | some e => (fun k => if k = key then none else st1 k, GenResult.failure e)
      | none =>
        (fun k => if k = key then (st1 k).map (fun r =>
            ⟨r.exp, r.latexSrc, r.answer, r.file, some (opts.cleanupTime * 1000)⟩)
          else st1 k,
         GenResult.success key)

/-! ### Refinement definitions written from the specification's words -/

/-- Modelled from the spec: the grouping rule as §4.4 states it — group a
rendered operand iff the operator requires grouping, the operand is not in
the first position (the position distinguished for associative operators),
the operand's head precedence is nonzero (literals are never grouped), and
either that precedence is numerically greater than the operator's own or
the operator is non-associative. -/
def groupSpec (o : Operator) (i tp : Nat) : Bool :=
  o.doGroup && !(decide (i = 0)) && decide (tp ≠ 0) &&
    (decide (o.precedence < tp) || !o.associative)

/-! ### Re-parsing the rendered markup

The spec asks that the rendered string, read back under standard arithmetic
precedence, equal the evaluated answer.  The reader below is modelled from
the spec (the repository contains no parser): `+` and `-` bind loosest and
associate left, `\times` binds tighter and associates left, and atoms are
numbers, parenthesized expressions and `\frac{...}{...}` fractions. -/

/-- Lexical tokens of the rendered markup. -/
inductive LTok where
  | num (q : ℚ)
  | plus
  | minus
  | times
  | fracT
  | lbrace
  | rbrace
  | lparen
  | rparen
deriving DecidableEq

/-- The characters each markup token contributes to the rendered string. -/
def tokStr : LTok → List Char
  | LTok.num q => numStrL q
  | LTok.plus => [' ', '+', ' ']
  | LTok.minus => [' ', '-', ' ']
  | LTok.times => (" \\times ").data
  | LTok.fracT => ("\\frac").data
  | LTok.lbrace => ['\x7b']
  | LTok.rbrace => ['\x7d']
  | LTok.lparen => ['(']
  | LTok.rparen => [')']

/-- Flatten a token sequence into the rendered string. -/
def flatten : List LTok → List Char
  | [] => []
  | t :: ts => tokStr t ++ flatten ts

/-- The five mutually recursive productions of the reader, dispatched by a
tag so the whole parser is a single recursion on fuel (every production
spends one unit of fuel per step). -/
inductive PK where
  | atom
  | term
  | termLoop (acc : ℚ)
  | expr
  | exprLoop (acc : ℚ)

/-- Modelled from the spec: the standard-precedence reader.
`PK.atom` parses a number, a parenthesized expression or a fraction;
`PK.term` a left-associated `\times` chain of atoms; `PK.expr` a
left-associated `+`/`-` chain of terms. -/
def parseP : Nat → PK → List LTok → Option (ℚ × List LTok)
  | 0, _, _ => none
  | fuel + 1, PK.atom, ts =>
    match ts with
    | LTok.num q :: rest => some (q, rest)
    | LTok.lparen :: rest =>
      match parseP fuel PK.expr rest with
      | some (v, LTok.rparen :: rest1) => some (v, rest1)
      | _ => none
    | LTok.fracT :: LTok.lbrace :: rest =>
      match parseP fuel PK.expr rest with
      | some (v1, LTok.rbrace :: LTok.lbrace :: rest1) =>
        match parseP fuel PK.expr rest1 with
        | some (v2, LTok.rbrace :: rest2) => some (v1 / v2, rest2)
        | _ => none
      | _ => none
    | _ => none
  | fuel + 1, PK.term, ts =>
    match parseP fuel PK.atom ts with
    | none => none
    | some (v, rest) => parseP fuel (PK.termLoop v) rest
  | fuel + 1, PK.termLoop acc, ts =>
    match ts with
    | LTok.times :: rest =>
      match parseP fuel PK.atom rest with
      | none => none
      | some (v, rest1) => parseP fuel (PK.termLoop (acc * v)) rest1
    | _ => some (acc, ts)
  | fuel + 1, PK.expr, ts =>
    match parseP fuel PK.term ts with
    | none => none
    | some (v, rest) => parseP fuel (PK.exprLoop v) rest
  | fuel + 1, PK.exprLoop acc, ts =>
    match ts with
    | LTok.plus :: rest =>
      match parseP fuel PK.term rest with
      | none => none
      | some (v, rest1) => parseP fuel (PK.exprLoop (acc + v)) rest1
    | LTok.minus :: rest =>
      match parseP fuel PK.term rest with
      | none => none
      | some (v, rest1) => parseP fuel (PK.exprLoop (acc - v)) rest1
    | _ => some (acc, ts)

/-- Interpret a complete token sequence under standard precedence. -/
def interp (fuel : Nat) (ts : List LTok) : Option ℚ :=
  match parseP fuel PK.expr ts with
  | some (v, []) => some v
  | _ => none

/-! ### The shape of generator output

`generateExpression` always tops the pending count up to the arity just
before pushing an operator, so (with the binary default registry) every
stack it returns denotes a right-leaning comb: each operator's
first-popped operand is a fresh literal and its second operand is the
previously built subtree.  `GenExp` captures exactly these stacks. -/

/-- Names for the four default operators. -/
inductive GOp where
  | add
  | sub
  | mul
  | divf
deriving DecidableEq

/-- The registry entry each name denotes. -/
def GOp.toOperator : GOp → Operator
  | GOp.add => addOp
  | GOp.sub => subOp
  | GOp.mul => mulOp
  | GOp.divf => divOp

/-- Generator-shaped expressions: a literal, or an operator applied to a
fresh literal (first-popped operand) and an earlier subtree. -/
inductive GenExp where
  | leaf (q : ℚ)
  | node (g : GOp) (lit : ℚ) (rest : GenExp)

/-- The stack denoting a generator-shaped expression. -/
def toStack : GenExp → List Token
  | GenExp.leaf q => [Token.num q]
  | GenExp.node g lit rest => toStack rest ++ [Token.num lit, Token.op g.toOperator]

/-- The value `solve` computes for a generator-shaped expression. -/
def evalG : GenExp → ℚ
  | GenExp.leaf q => q
  | GenExp.node g lit rest => (GOp.toOperator g).op [lit, evalG rest]

/-- Precedence of the token at the top of the expression's stack. -/
def headPrecG : GenExp → Nat
  | GenExp.leaf _ => 0
  | GenExp.node g _ _ => (GOp.toOperator g).precedence

/-- Parenthesization at the markup-token level. -/
def parenth (ts : List LTok) : List LTok := LTok.lparen :: ts ++ [LTok.rparen]

/-- The markup tokens `latex` produces for a generator-shaped expression
(established by `latex_toStack` below): position 0 is never grouped, and
position 1 is grouped exactly when `groupCond` fires for the default
operator at hand. -/
def ltoks : GenExp → List LTok
  | GenExp.leaf q => [LTok.num q]
  | GenExp.node GOp.add lit rest => LTok.num lit :: LTok.plus :: ltoks rest
  | GenExp.node GOp.sub lit rest =>
    LTok.num lit :: LTok.minus ::
      (if headPrecG rest ≠ 0 then parenth (ltoks rest) else ltoks rest)
  | GenExp.node GOp.mul lit rest =>
    LTok.num lit :: LTok.times ::
      (if 3 < headPrecG rest then parenth (ltoks rest) else ltoks rest)
  | GenExp.node GOp.divf lit rest =>
    LTok.fracT :: LTok.lbrace :: LTok.num lit :: LTok.rbrace :: LTok.lbrace ::
      ltoks rest ++ [LTok.rbrace]

/-- Is the expression rendered as a self-delimiting atom (a literal or a
fraction)? -/
def isAtomG : GenExp → Bool
  | GenExp.leaf _ => true
  | GenExp.node GOp.divf _ _ => true
  | _ => false

/-- Token sequences whose head ends the current `+`/`-` or `\times` chain:
the end of input, a closing parenthesis or a closing brace. -/
def isStop : List LTok → Bool
  | [] => true
  | LTok.rparen :: _ => true
  | LTok.rbrace :: _ => true
  | _ => false

/-! ### Consumption predicates -/

/-- `s` is a complete sub-stack evaluating to `v`: wherever it sits on top
of the stack, `solve` consumes exactly `s` and returns `v` (for any fuel of
at least the length of `s`). -/
def SolvesTo (s : List Token) (v : ℚ) : Prop :=
  ∀ C fuel, s.length ≤ fuel → solve fuel (C ++ s) = some (v, C)

/-- `s` is a complete sub-stack rendering to `str`: wherever it sits on top
of the stack, `latex` consumes exactly `s` and produces `str`. -/
def RendersTo (s : List Token) (str : List Char) : Prop :=
  ∀ C fuel, s.length ≤ fuel → latex fuel (C ++ s) = some (str, C)

/-- Concatenate argument sub-stacks given in pop order: the first argument
to be popped sits nearest the end of the stack. -/
def stackOfArgs : List (List Token) → List Token
  | [] => []
  | a :: rest => stackOfArgs rest ++ a

/-! ### Concrete fixtures used by witnesses and counterexamples -/

/-- A deterministic random stream. -/
def zeroRng : Rng := ⟨fun _ => 0, 0⟩

/-- A well-formed (but not generator-reachable) stack over the default
registry: the multiplication's first-popped operand is an addition. -/
def mixedStack : List Token :=
  [Token.num 3, Token.num 1, Token.num 2, Token.op addOp, Token.op mulOp]

/-- The markup tokens of the string `latex` renders for `mixedStack`. -/
def mixedToks : List LTok :=
  [LTok.num 2, LTok.plus, LTok.num 1, LTok.times, LTok.num 3]

/-- The stack of `3 - (4 - 5)`: the outer subtraction's first-popped
operand is the literal `3`, its second is the inner subtraction. -/
def subRightStack : List Token :=
  [Token.num 5, Token.num 4, Token.op subOp, Token.num 3, Token.op subOp]

/-- The stack of `(3 - 4) - 5`: the outer subtraction's first-popped
operand is the inner subtraction. -/
def subLeftStack : List Token :=
  [Token.num 5, Token.num 4, Token.num 3, Token.op subOp, Token.op subOp]

/-- A single-argument operator with positive arity (the identity). -/
def unaryOp : Operator := ⟨1, true, false, "u($1)", 1, fun args => args.getD 0 0⟩

/-- A demonstration record. -/
def demoRecord : Record :=
  ⟨[Token.num 2], "doc", 4, "/tmp/math-captcha/k.png", some 600000⟩

/-- A manager state holding `demoRecord` under the key `k`. -/
def demoState : CState := fun key => if key = "k" then some demoRecord else none

/-! ## Lemmas about `solve` -/

theorem solvesTo_num (q : ℚ) : SolvesTo [Token.num q] q := by
  intro C fuel h
  match fuel with
  | f + 1 => simp [solve]

theorem solvesTo_length_pos (s : List Token) (v : ℚ) (h : SolvesTo s v) : s ≠ [] := by
  intro hnil
  have h1 := h [] 1 (by simp [hnil])
  rw [hnil] at h1
  simp [solve] at h1

theorem solveN_args (ss : List (List Token)) (vals : List ℚ)
    (hlen : ss.length = vals.length)
    (hst : ∀ i (hi : i < ss.length) (hv : i < vals.length),
      SolvesTo (ss.get ⟨i, hi⟩) (vals.get ⟨i, hv⟩)) :
    ∀ C fuel, (stackOfArgs ss).length ≤ fuel →
      solveN fuel ss.length (C ++ stackOfArgs ss) = some (vals, C) := by
  induction ss generalizing vals with
  | nil =>
    cases vals with
    | nil => intro C fuel _; simp [solveN, solveArgs, stackOfArgs]
    | cons v vs => simp at hlen
  | cons a rest ih =>
    cases vals with
    | nil => simp at hlen
    | cons v vs =>
      intro C fuel hfuel
      have hlen1 : rest.length = vs.length := by simpa using hlen
      have h0 : SolvesTo a v := hst 0 (by simp) (by simp)
      have hrest : ∀ i (hi : i < rest.length) (hv : i < vs.length),
          SolvesTo (rest.get ⟨i, hi⟩) (vs.get ⟨i, hv⟩) := by
        intro i hi hv
        exact hst (i + 1) (by simpa using hi) (by simpa using hv)
      have hsplit : C ++ stackOfArgs (a :: rest) = (C ++ stackOfArgs rest) ++ a := by
        simp [stackOfArgs]
      have hlens : (stackOfArgs (a :: rest)).length =
          (stackOfArgs rest).length + a.length := by
        simp [stackOfArgs]
      rw [hsplit]
      simp only [List.length_cons, solveN, solveArgs]
      rw [h0 (C ++ stackOfArgs rest) fuel (by omega)]
      dsimp only
      have hih := ih vs hlen1 hrest C fuel (by omega)
      simp only [solveN] at hih
      rw [hih]

theorem solvesTo_op (o : Operator) (ss : List (List Token)) (vals : List ℚ)
    (hlen1 : ss.length = o.arity) (hlen2 : vals.length = o.arity)
    (hst : ∀ i (hi : i < ss.length) (hv : i < vals.length),
      SolvesTo (ss.get ⟨i, hi⟩) (vals.get ⟨i, hv⟩)) :
    SolvesTo (stackOfArgs ss ++ [Token.op o]) (o.op vals) := by
  intro C fuel hf
  rw [show (stackOfArgs ss ++ [Token.op o]).length =
      (stackOfArgs ss).length + 1 by simp] at hf
  match fuel, hf with
  | fuel + 1, hf =>
    rw [show C ++ (stackOfArgs ss ++ [Token.op o]) =
        (C ++ stackOfArgs ss) ++ [Token.op o] by simp]
    simp only [solve, List.getLast?_concat, List.dropLast_concat]
    rw [← hlen1]
    have h := solveN_args ss vals (by omega) hst C fuel (by omega)
    simp only [solveN] at h
    rw [h]

theorem solvesTo_bin (o : Operator) (h2 : o.arity = 2) (s : List Token) (v w : ℚ)
    (hs : SolvesTo s v) :
    SolvesTo (s ++ [Token.num w, Token.op o]) (o.op [w, v]) := by
  have hpt : ∀ i (hi : i < ([[Token.num w], s] : List (List Token)).length)
      (hv : i < ([w, v] : List ℚ).length),
      SolvesTo (([[Token.num w], s] : List (List Token)).get ⟨i, hi⟩)
        (([w, v] : List ℚ).get ⟨i, hv⟩) := by
    intro i hi hv
    match i with
    | 0 => exact solvesTo_num w
    | 1 => exact hs
    | n + 2 => simp at hi
  have h := solvesTo_op o [[Token.num w], s] [w, v] (by simp [h2]) (by simp [h2]) hpt
  have hshape : stackOfArgs [[Token.num w], s] ++ [Token.op o] =
      s ++ [Token.num w, Token.op o] := by
    simp [stackOfArgs]
  rwa [hshape] at h

/-! ## Lemmas about `wellFormedB` -/

theorem wellFormedB_num (w : ℚ) : wellFormedB [Token.num w] = true := rfl

theorem wellFormedB_append_bin (s : List Token) (w : ℚ) (o : Operator)
    (h2 : o.arity = 2) (h : wellFormedB s = true) :
    wellFormedB (s ++ [Token.num w, Token.op o]) = true := by
  unfold wellFormedB at h ⊢
  rw [show (s ++ [Token.num w, Token.op o]).reverse =
      Token.op o :: Token.num w :: s.reverse by simp]
  simpa [consumeOk, tokArity, h2] using h

/-! ## Lemmas about the generator -/

theorem getD_mem_of_lt (operators : List Operator) (idx : Nat)
    (hidx : idx < operators.length) :
    operators.getD idx dummyOp ∈ operators := by
  have h : operators.getD idx dummyOp = operators.get ⟨idx, hidx⟩ := by
    simp [List.getD_eq_getElem?_getD, List.getElem?_eq_getElem hidx]
  rw [h]
  exact operators.get_mem _ _

theorem randInt_lt (r : Rng) (len : Nat) (hlen : 0 < len) :
    (randInt r 0 (len - 1)).1 < len := by
  simp only [randInt]
  have h : len - 1 + 1 - 0 = len := by omega
  rw [h]
  simpa using Nat.mod_lt (r.stream r.pos) hlen

theorem pushVals_shape (values : List ℚ) :
    ∀ k r, ∃ (ws : List ℚ) (r2 : Rng),
      pushVals values k r = (ws.map Token.num, r2) ∧ ws.length = k := by
  intro k
  induction k with
  | zero => exact fun r => ⟨[], r, rfl, rfl⟩
  | succ k ih =>
    intro r
    obtain ⟨ws, r2, hpv, hlen⟩ := ih (randInt r 0 (values.length - 1)).2
    refine ⟨values.getD (randInt r 0 (values.length - 1)).1 0 :: ws, r2, ?_, by simp [hlen]⟩
    simp [pushVals, hpv]

theorem genLoop_wf (operators : List Operator) (values : List ℚ)
    (h2 : ∀ o ∈ operators, o.arity = 2) (hne : operators ≠ []) :
    ∀ n r acc v, SolvesTo acc v → wellFormedB acc = true →
      ∃ w, SolvesTo (genLoop operators values n r acc 1) w ∧
        wellFormedB (genLoop operators values n r acc 1) = true := by
  intro n
  induction n with
  | zero => exact fun r acc v hs hw => ⟨v, hs, hw⟩
  | succ n ih =>
    intro r acc v hs hw
    have hlen : 0 < operators.length := List.length_pos.mpr hne
    set pick := randInt r 0 (operators.length - 1) with hpick
    set o := operators.getD pick.1 dummyOp with ho
    have harity : o.arity = 2 :=
      h2 _ (getD_mem_of_lt operators _ (randInt_lt r operators.length hlen))
    obtain ⟨ws, r2, hpv, hwslen⟩ :=
      pushVals_shape values ((o.arity : Int) - 1).toNat pick.2
    have hneed : ((o.arity : Int) - 1).toNat = 1 := by rw [harity]; rfl
    rw [hneed] at hpv hwslen
    obtain ⟨w1, hws⟩ : ∃ w1, ws = [w1] := by
      cases ws with
      | nil => simp at hwslen
      | cons a l =>
        cases l with
        | nil => exact ⟨a, rfl⟩
        | cons b l2 => simp at hwslen
    subst hws
    have htop : (if (1 : Int) < (o.arity : Int) then (o.arity : Int) else 1) - 1 = 1 := by
      rw [harity]; norm_num
    simp only [genLoop, ← hpick, ← ho, hneed, hpv, htop, List.map]
    have hacc : acc ++ [Token.num w1] ++ [Token.op o] = acc ++ [Token.num w1, Token.op o] := by
      simp
    rw [hacc]
    exact ih r2 (acc ++ [Token.num w1, Token.op o]) (o.op [w1, v])
      (solvesTo_bin o harity acc v w1 hs)
      (wellFormedB_append_bin acc w1 o harity hw)

theorem generateExpression_wf (operators : List Operator) (values : List ℚ)
    (h2 : ∀ o ∈ operators, o.arity = 2) (hne : operators ≠ [])
    (minOps maxOps : Nat) (h1 : 1 ≤ minOps) (r : Rng) :
    ∃ w, SolvesTo (generateExpression operators minOps maxOps values r) w ∧
      wellFormedB (generateExpression operators minOps maxOps values r) = true := by
  have hd : 1 ≤ (randInt r minOps maxOps).1 := by
    simp only [randInt]
    omega
  obtain ⟨m, hm⟩ : ∃ m, (randInt r minOps maxOps).1 = m + 1 :=
    ⟨(randInt r minOps maxOps).1 - 1, by omega⟩
  simp only [generateExpression, hm]
  -- unfold the first iteration, which starts from valCount = 0
  have hlen : 0 < operators.length := List.length_pos.mpr hne
  set r1 := (randInt r minOps maxOps).2 with hr1
  set pick := randInt r1 0 (operators.length - 1) with hpick
  set o := operators.getD pick.1 dummyOp with ho
  have harity : o.arity = 2 :=
    h2 _ (getD_mem_of_lt operators _ (randInt_lt r1 operators.length hlen))
  obtain ⟨ws, r2, hpv, hwslen⟩ :=
    pushVals_shape values ((o.arity : Int) - 0).toNat pick.2
  have hneed : ((o.arity : Int) - 0).toNat = 2 := by rw [harity]; rfl
  rw [hneed] at hpv hwslen
  obtain ⟨w1, w2, hws⟩ : ∃ w1 w2, ws = [w1, w2] := by
    cases ws with
    | nil => simp at hwslen
    | cons a l =>
      cases l with
      | nil => simp at hwslen
      | cons b l2 =>
        cases l2 with
        | nil => exact ⟨a, b, rfl⟩
        | cons c l3 => simp at hwslen
  subst hws
  have htop : (if (0 : Int) < (o.arity : Int) then (o.arity : Int) else 0) - 1 = 1 := by
    rw [harity]; norm_num
  simp only [genLoop, ← hpick, ← ho, hneed, hpv, htop, List.map]
  have hacc : ([] : List Token) ++ [Token.num w1, Token.num w2] ++ [Token.op o] =
      [Token.num w1] ++ [Token.num w2, Token.op o] := by simp
  rw [hacc]
  exact genLoop_wf operators values h2 hne m r2
    ([Token.num w1] ++ [Token.num w2, Token.op o]) (o.op [w2, w1])
    (solvesTo_bin o harity [Token.num w1] w1 w2 (solvesTo_num w1))
    (wellFormedB_append_bin [Token.num w1] w2 o harity (wellFormedB_num w1))

/-- Claim C1 (corrected): with a registry consisting of one operator of
arity 1 — a positive arity — the configuration `minOps = maxOps = 2`,
`values = [1]` satisfies every hypothesis of the claim, yet the stack
`generateExpression` returns (here for the all-zeros random stream, which
determines the draw completely) is `[1, u, 1, u]`: its consumption scan
fails, and `solve` consumes only the top two tokens, returning a value
while two tokens are left on the stack, so the stack does not reduce to
exactly one value. -/
theorem c1_counterexample :
    ((1 : Nat) ≤ 2 ∧ 2 ≤ 2 ∧ ([(1 : ℚ)] : List ℚ) ≠ [] ∧
      ([unaryOp] : List Operator) ≠ [] ∧ 0 < unaryOp.arity) ∧
    generateExpression [unaryOp] 2 2 [1] zeroRng =
      [Token.num 1, Token.op unaryOp, Token.num 1, Token.op unaryOp] ∧
    wellFormedB (generateExpression [unaryOp] 2 2 [1] zeroRng) = false ∧
    solve 5 (generateExpression [unaryOp] 2 2 [1] zeroRng) =
      some (1, [Token.num 1, Token.op unaryOp]) ∧
    ¬ ∃ v, solve 5 (generateExpression [unaryOp] 2 2 [1] zeroRng) = some (v, []) := by
  refine ⟨⟨by norm_num, by norm_num, by simp, by simp, by decide⟩, rfl, rfl, rfl, ?_⟩
  rintro ⟨v, hv⟩
  rw [show solve 5 (generateExpression [unaryOp] 2 2 [1] zeroRng) =
    some (1, [Token.num 1, Token.op unaryOp]) from rfl] at hv
  simp at hv

/-- Claim C1 (amended): for every configuration with `1 ≤ minOps ≤ maxOps`,
a non-empty values array and a non-empty operator registry in which every
operator has arity exactly 2, every stack `generateExpression` can return
(over all random streams) is well-formed: the consumption scan succeeds
(the pending-slot count stays positive until the stack is exhausted and
exactly one value results), and `solve` consumes the whole stack and
returns a single value without underflow. -/
theorem c1_amended (operators : List Operator) (minOps maxOps : Nat)
    (values : List ℚ) (r : Rng)
    (h2 : ∀ o ∈ operators, o.arity = 2) (hne : operators ≠ [])
    (h1 : 1 ≤ minOps) (hmm : minOps ≤ maxOps) (hv : values ≠ []) :
    wellFormedB (generateExpression operators minOps maxOps values r) = true ∧
    ∃ v, solve (generateExpression operators minOps maxOps values r).length
      (generateExpression operators minOps maxOps values r) = some (v, []) := by
  obtain ⟨w, hs, hw⟩ := generateExpression_wf operators values h2 hne minOps maxOps h1 r
  refine ⟨hw, w, ?_⟩
  have h := hs [] (generateExpression operators minOps maxOps values r).length le_rfl
  simpa using h

/-- Witness for C1 (amended): the default registry (all four operators are
binary) with `minOps = maxOps = 1`, pool `[2]` and the all-zeros stream. -/
theorem c1_amended_witness :
    wellFormedB (generateExpression defaultOperators 1 1 [2] zeroRng) = true ∧
    ∃ v, solve (generateExpression defaultOperators 1 1 [2] zeroRng).length
      (generateExpression defaultOperators 1 1 [2] zeroRng) = some (v, []) := by
  refine c1_amended defaultOperators 1 1 [2] zeroRng ?_ (by simp [defaultOperators])
    le_rfl le_rfl (by simp)
  intro o ho
  simp only [defaultOperators, List.mem_cons, List.mem_singleton] at ho
  rcases ho with rfl | rfl | rfl | rfl | h
  · rfl
  · rfl
  · rfl
  · rfl
  · simp at h

/-- Claim C9 (counterexample): `generateExpression` performs no parameter
validation.  With both bounds 0 (below the required minimum of 1) it
returns the empty stack; with an empty values pool it likewise returns
normally; with `minOps = 2 > 1 = maxOps` it returns a five-token stack.
No configuration makes it fail: the code has no `InvalidConfigError`
path at all. -/
theorem c9_counterexample :
    generateExpression defaultOperators 0 0 [1] zeroRng = [] ∧
    generateExpression defaultOperators 0 0 [] zeroRng = [] ∧
    (generateExpression defaultOperators 2 1 [1] zeroRng).length = 5 := by
  exact ⟨rfl, rfl, rfl⟩

/-- Claim C9 (amended): expression generation does not validate its
parameters; an invalid configuration is not rejected.  In particular, for
any registry, pool and random stream, bounds of `0` (violating
`1 ≤ minOps`) make `generateExpression` return the empty stack instead of
failing with `InvalidConfigError`. -/
theorem c9_amended (operators : List Operator) (values : List ℚ) (r : Rng) :
    generateExpression operators 0 0 values r = [] := by
  simp [generateExpression, randInt, Nat.mod_one, genLoop]

/-! ## The lifecycle-manager claims -/

/-- Claim C5: for every key, supplied answer and number of places, `check`
returns `true` exactly when the stored answer and the supplied answer,
scaled by `10^places` and rounded to the nearest integer, agree; for a key
with no live record it returns `false` (and, being a total function,
raises no error). -/
theorem c5_check_semantics (st : CState) (key : String) (a : ℚ) (p : Nat) :
    (∀ rec, st key = some rec →
      (check st key a p = true ↔
        jsRound (rec.answer * 10 ^ p) = jsRound (a * 10 ^ p))) ∧
    (st key = none → check st key a p = false) := by
  constructor
  · intro rec h
    simp [check, h]
  · intro h
    simp [check, h]

/-- Witness for C5 at a concrete state: the stored answer `4` under key
`k` checks successfully against `4` and the unknown key `z` fails. -/
theorem c5_check_semantics_witness :
    check demoState ("k") 4 2 = true ∧ check demoState ("z") 4 2 = false := by
  constructor
  · exact ((c5_check_semantics demoState ("k") 4 2).1 demoRecord rfl).mpr rfl
  · exact (c5_check_semantics demoState ("z") 4 2).2 rfl

/-- Claim C7: `cleanup` is idempotent and never throws (it is a total
function on the state): for an unknown or already-removed key it leaves
the map unchanged; for a live key it deletes the record (together with its
pending timer handle), so cleaning up twice equals cleaning up once, and
after the first call `getImage` returns `null` and `check` returns
`false`. -/
theorem c7_cleanup_idempotent (st : CState) (key : String) :
    (st key = none → cleanup st key = st) ∧
    cleanup (cleanup st key) key = cleanup st key ∧
    (∀ rec, st key = some rec →
      cleanup st key key = none ∧
      getImage (cleanup st key) key = none ∧
      ∀ a p, check (cleanup st key) key a p = false) := by
  refine ⟨?_, ?_, ?_⟩
  · intro h
    simp [cleanup, h]
  · cases h : st key with
    | none => simp [cleanup, h]
    | some rec =>
      have h1 : cleanup st key key = none := by simp [cleanup, h]
      simp [cleanup, h1, h]
  · intro rec h
    have h1 : cleanup st key key = none := by simp [cleanup, h]
    exact ⟨h1, by simp [getImage, h1], fun a p => by simp [check, h1]⟩

/-- Witness for C7 at a concrete state. -/
theorem c7_cleanup_idempotent_witness :
    cleanup (cleanup demoState ("k")) ("k") = cleanup demoState ("k") ∧
    getImage (cleanup demoState ("k")) ("k") = none ∧
    cleanup demoState ("z") = demoState := by
  refine ⟨(c7_cleanup_idempotent demoState ("k")).2.1, ?_, ?_⟩
  · exact (((c7_cleanup_idempotent demoState ("k")).2.2) demoRecord rfl).2.1
  · exact (c7_cleanup_idempotent demoState ("z")).1 rfl

/-- Claim C8 (counterexample): a record is inserted by `generate` before
any pipeline stage has run (its timer handle is still unset, i.e. the key
is still pending), and `getImage` already returns the stored image path
for it — not `null` as the claim requires for pending keys. -/
theorem c8_counterexample :
    (pendingRecord [Token.num 2] ("doc") 4 ("/tmp/math-captcha/k.png")).handler = none ∧
    getImage (generateInsert (fun _ => none) ("k")
        (pendingRecord [Token.num 2] ("doc") 4 ("/tmp/math-captcha/k.png"))) ("k") =
      some ("/tmp/math-captcha/k.png") ∧
    getImage (generateInsert (fun _ => none) ("k")
        (pendingRecord [Token.num 2] ("doc") 4 ("/tmp/math-captcha/k.png"))) ("k") ≠
      none := by
  refine ⟨rfl, rfl, ?_⟩
  intro h
  rw [show getImage (generateInsert (fun _ => none) ("k")
      (pendingRecord [Token.num 2] ("doc") 4 ("/tmp/math-captcha/k.png"))) ("k") =
    some ("/tmp/math-captcha/k.png") from rfl] at h
  simp at h

/-- Claim C8 (amended): `getImage` is a pure lookup; it returns `null`
exactly for keys with no live record, and for every live record — whether
or not its pipeline has completed (armed timer handle or not) — it returns
the stored image path. -/
theorem c8_amended (st : CState) (key : String) :
    (st key = none → getImage st key = none) ∧
    (∀ rec, st key = some rec → getImage st key = some rec.file) := by
  constructor
  · intro h; simp [getImage, h]
  · intro rec h; simp [getImage, h]

/-- Witness for C8 (amended) at a concrete state. -/
theorem c8_amended_witness :
    getImage demoState ("k") = some ("/tmp/math-captcha/k.png") ∧
    getImage demoState ("z") = none := by
  constructor
  · exact (c8_amended demoState ("k")).2 demoRecord rfl
  · exact (c8_amended demoState ("z")).1 rfl

/-- Claim C6: whenever one of the three pipeline stages of `generate`
fails, the in-progress record is deleted — the key subsequently behaves as
unknown to `getImage`, `check` and `cleanup` — and `failure(err)` is
reported with the first failing stage's error; when all three stages
succeed, the record survives with an expiry timer of
`cleanupTime * 1000` milliseconds (i.e. `cleanupTime` seconds) armed and
`success(key)` is reported. -/
theorem c6_pipeline (st : CState) (opts : Options) (key : String) (rec : Record)
    (io : PipelineIO) :
    (∀ e, firstErr io = some e →
      (generateRun st opts key rec io).2 = GenResult.failure e ∧
      (generateRun st opts key rec io).1 key = none ∧
      getImage (generateRun st opts key rec io).1 key = none ∧
      (∀ a p, check (generateRun st opts key rec io).1 key a p = false) ∧
      cleanup (generateRun st opts key rec io).1 key = (generateRun st opts key rec io).1) ∧
    (firstErr io = none →
      (generateRun st opts key rec io).2 = GenResult.success key ∧
      ∃ r2, (generateRun st opts key rec io).1 key = some r2 ∧
        r2.handler = some (opts.cleanupTime * 1000)) := by
  obtain ⟨w, t, d⟩ := io
  constructor
  · intro e he
    have hkey : (generateRun st opts key rec ⟨w, t, d⟩).1 key = none := by
      cases w <;> cases t <;> cases d <;>
        simp_all [generateRun, firstErr]
    refine ⟨?_, hkey, by simp [getImage, hkey], fun a p => by simp [check, hkey],
      by simp [cleanup, hkey]⟩
    cases w <;> cases t <;> cases d <;> simp_all [generateRun, firstErr]
  · intro he
    have hw : w = none := by cases w <;> simp_all [firstErr]
    have ht : t = none := by cases t <;> simp_all [firstErr, hw]
    have hd : d = none := by cases d <;> simp_all [firstErr, hw, ht]
    subst hw; subst ht; subst hd
    refine ⟨rfl, ⟨rec.exp, rec.latexSrc, rec.answer, rec.file,
      some (opts.cleanupTime * 1000)⟩, ?_, rfl⟩
    simp [generateRun, generateInsert]

/-- Witness for C6: a failing write stage deletes the record and reports
its error; an error-free pipeline reports success with the timer armed. -/
theorem c6_pipeline_witness :
    (generateRun (fun _ => none) ⟨"/tmp/math-captcha", 600⟩ ("k") demoRecord
      ⟨some ("boom"), none, none⟩).2 = GenResult.failure ("boom") ∧
    (generateRun (fun _ => none) ⟨"/tmp/math-captcha", 600⟩ ("k") demoRecord
      ⟨some ("boom"), none, none⟩).1 ("k") = none ∧
    (generateRun (fun _ => none) ⟨"/tmp/math-captcha", 600⟩ ("k") demoRecord
      ⟨none, none, none⟩).2 = GenResult.success ("k") ∧
    ∃ r2, (generateRun (fun _ => none) ⟨"/tmp/math-captcha", 600⟩ ("k") demoRecord
      ⟨none, none, none⟩).1 ("k") = some r2 ∧ r2.handler = some 600000 := by
  have hfail := (c6_pipeline (fun _ => none) ⟨"/tmp/math-captcha", 600⟩ ("k") demoRecord
    ⟨some ("boom"), none, none⟩).1 ("boom") rfl
  have hok := (c6_pipeline (fun _ => none) ⟨"/tmp/math-captcha", 600⟩ ("k") demoRecord
    ⟨none, none, none⟩).2 rfl
  exact ⟨hfail.1, hfail.2.1, hok.1, hok.2⟩

/-! ## Lemmas about first-occurrence replacement -/

theorem matchAt_self_append (pat tail : List Char) : matchAt pat (pat ++ tail) = true := by
  induction pat with
  | nil => rfl
  | cons p ps ih => simp [matchAt, ih]

theorem replaceOnceL_skip (ps rep xs ys : List Char) (hx : '$' ∉ xs) :
    replaceOnceL ('$' :: ps) rep (xs ++ ys) = xs ++ replaceOnceL ('$' :: ps) rep ys := by
  induction xs with
  | nil => simp
  | cons c cs ih =>
    have hc : c ≠ '$' := by
      intro h
      exact hx (by simp [h])
    have hm : matchAt ('$' :: ps) (c :: (cs ++ ys)) = false := by
      simp [matchAt]
      intro h
      exact absurd h.symm hc
    simp only [List.cons_append, replaceOnceL, List.append_eq, hm, Bool.false_eq_true,
      if_false]
    rw [ih (fun h => hx (by simp [h]))]

theorem replaceOnceL_at (ps rep xs tail : List Char) (hx : '$' ∉ xs) :
    replaceOnceL ('$' :: ps) rep (xs ++ ('$' :: ps) ++ tail) = xs ++ rep ++ tail := by
  rw [List.append_assoc, replaceOnceL_skip ps rep xs (('$' :: ps) ++ tail) hx]
  have hm : matchAt ('$' :: ps) ('$' :: (ps ++ tail)) = true := by
    simpa using matchAt_self_append ('$' :: ps) tail
  rw [show ('$' :: ps) ++ tail = '$' :: (ps ++ tail) from rfl]
  simp only [replaceOnceL, hm, if_pos]
  rw [List.length_cons, List.drop_succ_cons, List.drop_left]
  simp

theorem replaceOnceL_none (ps rep : List Char) :
    ∀ s : List Char, '$' ∉ s → replaceOnceL ('$' :: ps) rep s = s := by
  intro s
  induction s with
  | nil => intro _; rfl
  | cons c cs ih =>
    intro hs
    have hc : c ≠ '$' := by
      intro h
      exact hs (by simp [h])
    have hm : matchAt ('$' :: ps) (c :: cs) = false := by
      simp [matchAt]
      intro h
      exact absurd h.symm hc
    simp only [replaceOnceL, hm, Bool.false_eq_true, if_false]
    rw [ih (fun h => hs (by simp [h]))]

/-- Substituting two `$`-free operand strings into a binary template whose
placeholders occur once each. -/
theorem substituteL_binary (pre mid suf a b : List Char)
    (hpre : '$' ∉ pre) (hmid : '$' ∉ mid) (hsuf : '$' ∉ suf)
    (ha : '$' ∉ a) (hb : '$' ∉ b) :
    substituteL (pre ++ placeholder 1 ++ mid ++ placeholder 2 ++ suf) [a, b] =
      pre ++ a ++ mid ++ b ++ suf := by
  show replaceOnceL (placeholder 2) b
    (replaceOnceL (placeholder 1) a
      (pre ++ placeholder 1 ++ mid ++ placeholder 2 ++ suf)) =
    pre ++ a ++ mid ++ b ++ suf
  simp only [placeholder]
  have h1 : pre ++ ('$' :: natStrL 1) ++ mid ++ ('$' :: natStrL 2) ++ suf =
      pre ++ ('$' :: natStrL 1) ++ (mid ++ ('$' :: natStrL 2) ++ suf) := by simp
  rw [h1, replaceOnceL_at (natStrL 1) a pre _ hpre]
  have h2 : pre ++ a ++ (mid ++ ('$' :: natStrL 2) ++ suf) =
      (pre ++ a ++ mid) ++ ('$' :: natStrL 2) ++ suf := by simp
  rw [h2, replaceOnceL_at (natStrL 2) b (pre ++ a ++ mid) suf (by simp [hpre, ha, hmid])]

/-- Claim C10: `substitute` replaces, for each index, only the first
occurrence of the placeholder currently being substituted (first
conjunct, with the `$`-free prefix witnessing that the occurrence shown is
the first); consequently a binary template in which `$1` and `$2` each
occur once — as in all default operators — receives each rendered operand
exactly once at its placeholder's position (second conjunct), while a
template repeating `$1` keeps the second occurrence unreplaced (third
conjunct: `$1 + $1` with operands `x`, `y` becomes `x + $1`, and `y` is
dropped). -/
theorem c10_substitute :
    (∀ (i : Nat) (xs tail rep : List Char), '$' ∉ xs →
      replaceOnceL (placeholder i) rep (xs ++ placeholder i ++ tail) =
        xs ++ rep ++ tail) ∧
    (∀ pre mid suf a b : List Char,
      '$' ∉ pre → '$' ∉ mid → '$' ∉ suf → '$' ∉ a → '$' ∉ b →
      substituteL (pre ++ placeholder 1 ++ mid ++ placeholder 2 ++ suf) [a, b] =
        pre ++ a ++ mid ++ b ++ suf) ∧
    substituteL (("$1 + $1") : String).data
        [(("x") : String).data, (("y") : String).data] =
      (("x + $1") : String).data := by
  refine ⟨?_, ?_, ?_⟩
  · intro i xs tail rep hx
    exact replaceOnceL_at (natStrL i) rep xs tail hx
  · exact substituteL_binary
  · rfl

/-- Witness for C10: substituting `3`, `4` into the addition template
yields `3 + 4`, and replacing `$1` by `9` in `$1$1` rewrites only the
first occurrence. -/
theorem c10_substitute_witness :
    substituteL (("$1 + $2") : String).data
        [(("3") : String).data, (("4") : String).data] =
      (("3 + 4") : String).data ∧
    replaceOnceL (placeholder 1) (("9") : String).data (("$1$1") : String).data =
      (("9$1") : String).data := by
  constructor
  · exact c10_substitute.2.1 [] ([' ', '+', ' ']) [] (("3") : String).data
      (("4") : String).data (by simp) (by decide) (by simp) (by decide) (by decide)
  · exact c10_substitute.1 1 [] (("$1") : String).data (("9") : String).data (by simp)

/-- Claim C3: the renderer parenthesizes an operand exactly under the
spec's condition — grouping required, position not the (associative-)first
one, head precedence nonzero (literals are never grouped) and either
looser precedence than the operator's or a non-associative operator (the
condition reading under which the claim's own examples are consistent:
position 0 is exempt for every operator).  Concretely, `3 - (4 - 5)`
parenthesizes the inner subtraction and `(3 - 4) - 5` does not
parenthesize the left subtree. -/
theorem c3_grouping :
    (∀ (o : Operator) (i tp : Nat), groupCond o i tp = groupSpec o i tp) ∧
    latex 9 subRightStack = some ((("3 - (4 - 5)") : String).data, []) ∧
    latex 9 subLeftStack = some ((("3 - 4 - 5") : String).data, []) := by
  refine ⟨?_, rfl, rfl⟩
  intro o i tp
  cases i <;> simp [groupCond, groupSpec]

/-! ## Lemmas about `latex` -/

theorem getLast?_append_ne_nil {α : Type} (l1 l2 : List α) (h : l2 ≠ []) :
    (l1 ++ l2).getLast? = l2.getLast? := by
  rw [List.getLast?_append]
  cases h2 : l2.getLast? with
  | none => exact absurd (List.getLast?_eq_none_iff.mp h2) h
  | some a => rfl

theorem rendersTo_num (q : ℚ) : RendersTo [Token.num q] (numStrL q) := by
  intro C fuel h
  match fuel with
  | f + 1 => simp [latex]

theorem rendersTo_ne_nil (s : List Token) (str : List Char) (h : RendersTo s str) :
    s ≠ [] := by
  intro hnil
  have h1 := h [] 1 (by simp [hnil])
  rw [hnil] at h1
  simp [latex] at h1

theorem latex_bin (o : Operator) (h2 : o.arity = 2) (A B : List Token)
    (sa sb : List Char) (hA : RendersTo A sa) (hB : RendersTo B sb) :
    RendersTo (B ++ A ++ [Token.op o])
      (substituteL o.latex.data
        [if groupCond o 0 (precedence A.getLast?) then '(' :: sa ++ [')'] else sa,
         if groupCond o 1 (precedence B.getLast?) then '(' :: sb ++ [')'] else sb]) := by
  intro C fuel hf
  have hAne : A ≠ [] := rendersTo_ne_nil A sa hA
  have hBne : B ≠ [] := rendersTo_ne_nil B sb hB
  rw [show (B ++ A ++ [Token.op o]).length = B.length + A.length + 1 by simp; omega] at hf
  match fuel, hf with
  | fuel + 1, hf =>
    rw [show C ++ (B ++ A ++ [Token.op o]) = ((C ++ B) ++ A) ++ [Token.op o] by simp]
    simp only [latex, List.getLast?_concat, List.dropLast_concat]
    rw [h2]
    have hpeek1 : ((C ++ B) ++ A).getLast? = A.getLast? :=
      getLast?_append_ne_nil (C ++ B) A hAne
    have hpeek2 : (C ++ B).getLast? = B.getLast? :=
      getLast?_append_ne_nil C B hBne
    have hlat1 : latex fuel ((C ++ B) ++ A) = some (sa, C ++ B) :=
      hA (C ++ B) fuel (by omega)
    have hlat2 : latex fuel (C ++ B) = some (sb, C) :=
      hB C fuel (by omega)
    simp only [latexArgsWith, hpeek1, hpeek2, hlat1, hlat2]

/-- Claim C4 (counterexample): on the stack `[4, 3, -]`, `solve` returns
`3 - 4 = -1` and `latex` renders `3 - 4`: the operand nearest the end of
the stack (the `3`) is consumed by the first recursive call and is the
operator's *first* operand positionally (it is substituted at `$1`).  Had
the first recursive call consumed the operator's *last* positional operand
(the `4` at `$2`), the result would have been `4 - 3 = 1 ≠ -1`. -/
theorem c4_counterexample :
    solve 3 [Token.num 4, Token.num 3, Token.op subOp] = some (-1, []) ∧
    latex 3 [Token.num 4, Token.num 3, Token.op subOp] =
      some ((("3 - 4") : String).data, []) ∧
    subOp.op [4, 3] = 1 ∧ ((-1 : ℚ)) ≠ 1 := by
  refine ⟨?_, rfl, ?_, by norm_num⟩
  · have h : solve 3 [Token.num 4, Token.num 3, Token.op subOp] =
        some ((3 : ℚ) - 4, []) := rfl
    rw [h]
    norm_num
  · show (4 : ℚ) - 3 = 1
    norm_num

/-- Claim C4 (amended): `solve` pops one token from the end; a numeric
literal is returned as-is (first conjunct); an operator of arity `k` makes
`k` recursive calls, the first of which consumes the operand nearest the
end of the stack, and applies its function to the results in pop order
(second conjunct, with `ss` the operand sub-stacks in pop order —
`stackOfArgs` places `ss[0]` nearest the end).  The first-popped operand
is the operator's *first* operand positionally: for the subtraction
operator, the value is `va - vb` and the rendering substitutes the
first-popped operand's string at `$1` (third conjunct). -/
theorem c4_amended :
    (∀ (q : ℚ) (C : List Token) (fuel : Nat), 1 ≤ fuel →
      solve fuel (C ++ [Token.num q]) = some (q, C)) ∧
    (∀ (o : Operator) (ss : List (List Token)) (vals : List ℚ),
      ss.length = o.arity → vals.length = o.arity →
      (∀ i (hi : i < ss.length) (hv : i < vals.length),
        SolvesTo (ss.get ⟨i, hi⟩) (vals.get ⟨i, hv⟩)) →
      SolvesTo (stackOfArgs ss ++ [Token.op o]) (o.op vals)) ∧
    (∀ (A B : List Token) (sa sb : List Char) (va vb : ℚ),
      SolvesTo A va → SolvesTo B vb → RendersTo A sa → RendersTo B sb →
      SolvesTo (B ++ A ++ [Token.op subOp]) (va - vb) ∧
      RendersTo (B ++ A ++ [Token.op subOp])
        (substituteL (("$1 - $2") : String).data
          [sa, if precedence B.getLast? ≠ 0 then '(' :: sb ++ [')'] else sb])) := by
  refine ⟨?_, solvesTo_op, ?_⟩
  · intro q C fuel h
    have := solvesTo_num q C fuel (by simpa using h)
    exact this
  · intro A B sa sb va vb hsA hsB hrA hrB
    constructor
    · have h := solvesTo_op subOp [A, B] [va, vb] rfl rfl ?_
      · have hs : stackOfArgs [A, B] ++ [Token.op subOp] =
            B ++ A ++ [Token.op subOp] := by simp [stackOfArgs]
        rw [hs] at h
        have hv : subOp.op [va, vb] = va - vb := by
          show va - vb = va - vb
          rfl
        rwa [hv] at h
      · intro i hi hv
        match i with
        | 0 => exact hsA
        | 1 => exact hsB
        | n + 2 => simp at hi
    · have h := latex_bin subOp rfl A B sa sb hrA hrB
      have hg0 : groupCond subOp 0 (precedence A.getLast?) = false := by
        simp [groupCond]
      have hg1 : groupCond subOp 1 (precedence B.getLast?) =
          decide (precedence B.getLast? ≠ 0) := by
        simp [groupCond, subOp]
      rw [hg0, hg1] at h
      simpa using h

/-- Witness for C4 (amended) on the stack `[4, 3, -]`: the first recursive
call consumes the `3` (nearest the end); it becomes `$1` in `3 - 4` and
the minuend in `3 - 4 = -1`. -/
theorem c4_amended_witness :
    solve 3 [Token.num 4, Token.num 3, Token.op subOp] = some ((3 : ℚ) - 4, []) ∧
    latex 3 [Token.num 4, Token.num 3, Token.op subOp] =
      some ((("3 - 4") : String).data, []) := by
  have h := c4_amended.2.2 [Token.num 3] [Token.num 4] (numStrL 3) (numStrL 4) 3 4
    (solvesTo_num 3) (solvesTo_num 4) (rendersTo_num 3) (rendersTo_num 4)
  constructor
  · have hs := h.1 [] 3 (by simp)
    simpa using hs
  · have hr := h.2 [] 3 (by simp)
    simpa using hr

/-! ## Step lemmas for the standard-precedence reader -/

theorem parseP_atom_num (f : Nat) (q : ℚ) (ts : List LTok) :
    parseP (f + 1) PK.atom (LTok.num q :: ts) = some (q, ts) := rfl

theorem parseP_atom_lparen (f : Nat) (ts : List LTok) :
    parseP (f + 1) PK.atom (LTok.lparen :: ts) =
      match parseP f PK.expr ts with
      | some (v, LTok.rparen :: rest1) => some (v, rest1)
      | _ => none := rfl

theorem parseP_atom_frac (f : Nat) (ts : List LTok) :
    parseP (f + 1) PK.atom (LTok.fracT :: LTok.lbrace :: ts) =
      match parseP f PK.expr ts with
      | some (v1, LTok.rbrace :: LTok.lbrace :: rest1) =>
        match parseP f PK.expr rest1 with
        | some (v2, LTok.rbrace :: rest2) => some (v1 / v2, rest2)
        | _ => none
      | _ => none := rfl

theorem parseP_term (f : Nat) (ts : List LTok) :
    parseP (f + 1) PK.term ts =
      match parseP f PK.atom ts with
      | none => none
      | some (v, rest) => parseP f (PK.termLoop v) rest := rfl

theorem parseP_termLoop_times (f : Nat) (acc : ℚ) (ts : List LTok) :
    parseP (f + 1) (PK.termLoop acc) (LTok.times :: ts) =
      match parseP f PK.atom ts with
      | none => none
      | some (v, rest1) => parseP f (PK.termLoop (acc * v)) rest1 := rfl

theorem parseP_termLoop_stop (f : Nat) (acc : ℚ) (ts : List LTok)
    (h : isStop ts = true) :
    parseP (f + 1) (PK.termLoop acc) ts = some (acc, ts) := by
  match ts, h with
  | [], _ => rfl
  | LTok.rparen :: _, _ => rfl
  | LTok.rbrace :: _, _ => rfl

theorem parseP_termLoop_plus (f : Nat) (acc : ℚ) (ts : List LTok) :
    parseP (f + 1) (PK.termLoop acc) (LTok.plus :: ts) =
      some (acc, LTok.plus :: ts) := rfl

theorem parseP_termLoop_minus (f : Nat) (acc : ℚ) (ts : List LTok) :
    parseP (f + 1) (PK.termLoop acc) (LTok.minus :: ts) =
      some (acc, LTok.minus :: ts) := rfl

theorem parseP_expr (f : Nat) (ts : List LTok) :
    parseP (f + 1) PK.expr ts =
      match parseP f PK.term ts with
      | none => none
      | some (v, rest) => parseP f (PK.exprLoop v) rest := rfl

theorem parseP_exprLoop_plus (f : Nat) (acc : ℚ) (ts : List LTok) :
    parseP (f + 1) (PK.exprLoop acc) (LTok.plus :: ts) =
      match parseP f PK.term ts with
      | none => none
      | some (v, rest1) => parseP f (PK.exprLoop (acc + v)) rest1 := rfl

theorem parseP_exprLoop_minus (f : Nat) (acc : ℚ) (ts : List LTok) :
    parseP (f + 1) (PK.exprLoop acc) (LTok.minus :: ts) =
      match parseP f PK.term ts with
      | none => none
      | some (v, rest1) => parseP f (PK.exprLoop (acc - v)) rest1 := rfl

theorem parseP_exprLoop_stop (f : Nat) (acc : ℚ) (ts : List LTok)
    (h : isStop ts = true) :
    parseP (f + 1) (PK.exprLoop acc) ts = some (acc, ts) := by
  match ts, h with
  | [], _ => rfl
  | LTok.rparen :: _, _ => rfl
  | LTok.rbrace :: _, _ => rfl

/-- Parsing a literal at term level, stopped by a chain-ending token. -/
theorem parseP_term_num_stop (q : ℚ) (ts : List LTok) (hstop : isStop ts = true) :
    ∀ fuel, 2 ≤ fuel →
      parseP fuel PK.term (LTok.num q :: ts) = some (q, ts) := by
  intro fuel hf
  obtain ⟨f, rfl⟩ : ∃ f, fuel = f + 2 := ⟨fuel - 2, by omega⟩
  rw [show f + 2 = (f + 1) + 1 by omega, parseP_term, parseP_atom_num]
  dsimp only
  exact parseP_termLoop_stop f q ts hstop

/-- Parsing a literal at term level, stopped by a following `+`. -/
theorem parseP_term_num_plus (q : ℚ) (ts : List LTok) :
    ∀ fuel, 2 ≤ fuel →
      parseP fuel PK.term (LTok.num q :: LTok.plus :: ts) =
        some (q, LTok.plus :: ts) := by
  intro fuel hf
  obtain ⟨f, rfl⟩ : ∃ f, fuel = f + 2 := ⟨fuel - 2, by omega⟩
  rw [show f + 2 = (f + 1) + 1 by omega, parseP_term, parseP_atom_num]
  dsimp only
  exact parseP_termLoop_plus f q ts

/-- Parsing a literal at term level, stopped by a following `-`. -/
theorem parseP_term_num_minus (q : ℚ) (ts : List LTok) :
    ∀ fuel, 2 ≤ fuel →
      parseP fuel PK.term (LTok.num q :: LTok.minus :: ts) =
        some (q, LTok.minus :: ts) := by
  intro fuel hf
  obtain ⟨f, rfl⟩ : ∃ f, fuel = f + 2 := ⟨fuel - 2, by omega⟩
  rw [show f + 2 = (f + 1) + 1 by omega, parseP_term, parseP_atom_num]
  dsimp only
  exact parseP_termLoop_minus f q ts

/-- Parsing a literal at term level, stopped by a following `\times`:
the loop continues into the chain. -/
theorem parseP_term_num_times (q : ℚ) (ts : List LTok) :
    ∀ fuel, 2 ≤ fuel →
      parseP fuel PK.term (LTok.num q :: LTok.times :: ts) =
        parseP (fuel - 1) (PK.termLoop q) (LTok.times :: ts) := by
  intro fuel hf
  obtain ⟨f, rfl⟩ : ∃ f, fuel = f + 2 := ⟨fuel - 2, by omega⟩
  rw [show f + 2 = (f + 1) + 1 by omega, parseP_term, parseP_atom_num]
  dsimp only
  rfl

/-- Parsing a lone literal at expression level. -/
theorem parseP_leaf (q : ℚ) (rest : List LTok) (hstop : isStop rest = true) :
    ∀ fuel, 3 ≤ fuel →
      parseP fuel PK.expr (LTok.num q :: rest) = some (q, rest) := by
  intro fuel hf
  obtain ⟨f, rfl⟩ : ∃ f, fuel = f + 3 := ⟨fuel - 3, by omega⟩
  rw [show f + 3 = (f + 2) + 1 by omega, parseP_expr]
  rw [parseP_term_num_stop q rest hstop (f + 2) (by omega)]
  dsimp only
  rw [parseP_exprLoop_stop (f + 1) q rest hstop]

/-! ## Facts about generator-shaped expressions -/

theorem gop_arity (g : GOp) : (GOp.toOperator g).arity = 2 := by
  cases g <;> rfl

theorem headPrecG_cases (e : GenExp) :
    headPrecG e = 0 ∨ headPrecG e = 3 ∨ headPrecG e = 5 := by
  cases e with
  | leaf q => exact Or.inl rfl
  | node g lit rest =>
    cases g with
    | add => exact Or.inr (Or.inr rfl)
    | sub => exact Or.inr (Or.inr rfl)
    | mul => exact Or.inr (Or.inl rfl)
    | divf => exact Or.inr (Or.inl rfl)

theorem headPrec_toStack (e : GenExp) :
    precedence (toStack e).getLast? = headPrecG e := by
  cases e with
  | leaf q => rfl
  | node g lit rest =>
    show precedence (toStack rest ++ [Token.num lit, Token.op g.toOperator]).getLast? = _
    rw [show toStack rest ++ [Token.num lit, Token.op g.toOperator] =
      (toStack rest ++ [Token.num lit]) ++ [Token.op g.toOperator] by simp]
    rw [List.getLast?_concat]
    rfl

theorem solvesTo_toStack (e : GenExp) : SolvesTo (toStack e) (evalG e) := by
  induction e with
  | leaf q => exact solvesTo_num q
  | node g lit rest ih =>
    have h := solvesTo_bin (GOp.toOperator g) (gop_arity g) (toStack rest) (evalG rest) lit ih
    exact h

/-! ## The rendered markup of generator-shaped expressions -/

theorem dollar_ne_digitCharL (d : Nat) : digitCharL d ≠ '$' := by
  by_cases h : d < 10
  · interval_cases d <;> decide
  · rw [show digitCharL d = '0' from List.getD_eq_default _ _ (by simp; omega)]
    decide

theorem dollar_not_mem_natStrGo (fuel n : Nat) : '$' ∉ natStrGo fuel n := by
  induction fuel generalizing n with
  | zero => simp [natStrGo]
  | succ f ih =>
    simp only [natStrGo]
    split
    · simp
      exact fun h => absurd h.symm (dollar_ne_digitCharL n)
    · simp [ih]
      exact fun h => absurd h.symm (dollar_ne_digitCharL (n % 10))

theorem dollar_not_mem_numStrL (q : ℚ) : '$' ∉ numStrL q := by
  simp only [numStrL, natStrL]
  intro h
  rcases List.mem_append.mp h with h1 | h1
  · rcases List.mem_append.mp h1 with h2 | h2
    · split at h2 <;> simp at h2
    · exact dollar_not_mem_natStrGo _ _ h2
  · split at h1
    · simp at h1
    · rcases List.mem_cons.mp h1 with h2 | h2
      · simp at h2
      · exact dollar_not_mem_natStrGo _ _ h2

theorem dollar_not_mem_tokStr (t : LTok) : '$' ∉ tokStr t := by
  cases t with
  | num q => exact dollar_not_mem_numStrL q
  | plus => decide
  | minus => decide
  | times => decide
  | fracT => decide
  | lbrace => decide
  | rbrace => decide
  | lparen => decide
  | rparen => decide

theorem flatten_append (ts1 ts2 : List LTok) :
    flatten (ts1 ++ ts2) = flatten ts1 ++ flatten ts2 := by
  induction ts1 with
  | nil => rfl
  | cons t ts ih => simp [flatten, ih]

theorem dollar_not_mem_flatten (ts : List LTok) : '$' ∉ flatten ts := by
  induction ts with
  | nil => simp [flatten]
  | cons t ts ih =>
    simp only [flatten]
    intro h
    rcases List.mem_append.mp h with h1 | h1
    · exact dollar_not_mem_tokStr t h1
    · exact ih h1

theorem rendersTo_toStack (e : GenExp) : RendersTo (toStack e) (flatten (ltoks e)) := by
  induction e with
  | leaf q =>
    have h := rendersTo_num q
    have hfl : flatten (ltoks (GenExp.leaf q)) = numStrL q := by
      simp [ltoks, flatten, tokStr]
    rw [hfl]
    exact h
  | node g lit rest ih =>
    have hbin := latex_bin (GOp.toOperator g) (gop_arity g)
      [Token.num lit] (toStack rest) (numStrL lit) (flatten (ltoks rest))
      (rendersTo_num lit) ih
    have hshape : toStack rest ++ [Token.num lit] ++ [Token.op (GOp.toOperator g)] =
        toStack (GenExp.node g lit rest) := by
      simp [toStack]
    rw [hshape] at hbin
    have hg0 : groupCond (GOp.toOperator g) 0
        (precedence ([Token.num lit] : List Token).getLast?) = false := by
      cases g <;> rfl
    have hpeek : precedence (toStack rest).getLast? = headPrecG rest :=
      headPrec_toStack rest
    rw [hg0, hpeek] at hbin
    have hdl : '$' ∉ flatten (ltoks rest) := dollar_not_mem_flatten (ltoks rest)
    have hdn : '$' ∉ numStrL lit := dollar_not_mem_numStrL lit
    have hdw : '$' ∉ ('(' :: flatten (ltoks rest) ++ [')']) := by
      intro h
      rcases List.mem_cons.mp h with h1 | h1
      · exact absurd h1 (by decide)
      · rcases List.mem_append.mp h1 with h2 | h2
        · exact hdl h2
        · simp at h2
    cases g with
    | add =>
      have hgf : groupCond (GOp.toOperator GOp.add) 1 (headPrecG rest) = false := by
        rcases headPrecG_cases rest with hp | hp | hp <;> rw [hp] <;> rfl
      simp only [hgf, Bool.false_eq_true, if_false] at hbin
      have heq : flatten (ltoks (GenExp.node GOp.add lit rest)) =
          substituteL (GOp.toOperator GOp.add).latex.data
            [numStrL lit, flatten (ltoks rest)] := by
        rw [show (GOp.toOperator GOp.add).latex.data =
          [] ++ placeholder 1 ++ [' ', '+', ' '] ++ placeholder 2 ++ [] from rfl]
        rw [substituteL_binary [] _ [] _ _ (by simp) (by decide) (by simp) hdn hdl]
        simp [ltoks, flatten, tokStr]
      rw [heq]
      exact hbin
    | sub =>
      rcases headPrecG_cases rest with hp | hp | hp
      · have hgf : groupCond (GOp.toOperator GOp.sub) 1 (headPrecG rest) = false := by
          rw [hp]; rfl
        simp only [hgf, Bool.false_eq_true, if_false] at hbin
        have heq : flatten (ltoks (GenExp.node GOp.sub lit rest)) =
            substituteL (GOp.toOperator GOp.sub).latex.data
              [numStrL lit, flatten (ltoks rest)] := by
          rw [show (GOp.toOperator GOp.sub).latex.data =
            [] ++ placeholder 1 ++ [' ', '-', ' '] ++ placeholder 2 ++ [] from rfl]
          rw [substituteL_binary [] _ [] _ _ (by simp) (by decide) (by simp) hdn hdl]
          simp [ltoks, hp, flatten, tokStr]
        rw [heq]
        exact hbin
      · have hgt : groupCond (GOp.toOperator GOp.sub) 1 (headPrecG rest) = true := by
          rw [hp]; rfl
        simp only [hgt, if_true] at hbin
        have heq : flatten (ltoks (GenExp.node GOp.sub lit rest)) =
            substituteL (GOp.toOperator GOp.sub).latex.data
              [numStrL lit, '(' :: flatten (ltoks rest) ++ [')']] := by
          rw [show (GOp.toOperator GOp.sub).latex.data =
            [] ++ placeholder 1 ++ [' ', '-', ' '] ++ placeholder 2 ++ [] from rfl]
          rw [substituteL_binary [] _ [] _ _ (by simp) (by decide) (by simp) hdn hdw]
          simp [ltoks, hp, parenth, flatten_append, flatten, tokStr]
        rw [heq]
        exact hbin
      · have hgt : groupCond (GOp.toOperator GOp.sub) 1 (headPrecG rest) = true := by
          rw [hp]; rfl
        simp only [hgt, if_true] at hbin
        have heq : flatten (ltoks (GenExp.node GOp.sub lit rest)) =
            substituteL (GOp.toOperator GOp.sub).latex.data
              [numStrL lit, '(' :: flatten (ltoks rest) ++ [')']] := by
          rw [show (GOp.toOperator GOp.sub).latex.data =
            [] ++ placeholder 1 ++ [' ', '-', ' '] ++ placeholder 2 ++ [] from rfl]
          rw [substituteL_binary [] _ [] _ _ (by simp) (by decide) (by simp) hdn hdw]
          simp [ltoks, hp, parenth, flatten_append, flatten, tokStr]
        rw [heq]
        exact hbin
    | mul =>
      rcases headPrecG_cases rest with hp | hp | hp
      · have hgf : groupCond (GOp.toOperator GOp.mul) 1 (headPrecG rest) = false := by
          rw [hp]; rfl
        simp only [hgf, Bool.false_eq_true, if_false] at hbin
        have heq : flatten (ltoks (GenExp.node GOp.mul lit rest)) =
            substituteL (GOp.toOperator GOp.mul).latex.data
              [numStrL lit, flatten (ltoks rest)] := by
          rw [show (GOp.toOperator GOp.mul).latex.data =
            [] ++ placeholder 1 ++ (" \\times ").data ++ placeholder 2 ++ [] from rfl]
          rw [substituteL_binary [] _ [] _ _ (by simp) (by decide) (by simp) hdn hdl]
          simp [ltoks, hp, flatten, tokStr]
        rw [heq]
        exact hbin
      · have hgf : groupCond (GOp.toOperator GOp.mul) 1 (headPrecG rest) = false := by
          rw [hp]; rfl
        simp only [hgf, Bool.false_eq_true, if_false] at hbin
        have heq : flatten (ltoks (GenExp.node GOp.mul lit rest)) =
            substituteL (GOp.toOperator GOp.mul).latex.data
              [numStrL lit, flatten (ltoks rest)] := by
          rw [show (GOp.toOperator GOp.mul).latex.data =
            [] ++ placeholder 1 ++ (" \\times ").data ++ placeholder 2 ++ [] from rfl]
          rw [substituteL_binary [] _ [] _ _ (by simp) (by decide) (by simp) hdn hdl]
          simp [ltoks, hp, flatten, tokStr]
        rw [heq]
        exact hbin
      · have hgt : groupCond (GOp.toOperator GOp.mul) 1 (headPrecG rest) = true := by
          rw [hp]; rfl
        simp only [hgt, if_true] at hbin
        have heq : flatten (ltoks (GenExp.node GOp.mul lit rest)) =
            substituteL (GOp.toOperator GOp.mul).latex.data
              [numStrL lit, '(' :: flatten (ltoks rest) ++ [')']] := by
          rw [show (GOp.toOperator GOp.mul).latex.data =
            [] ++ placeholder 1 ++ (" \\times ").data ++ placeholder 2 ++ [] from rfl]
          rw [substituteL_binary [] _ [] _ _ (by simp) (by decide) (by simp) hdn hdw]
          simp [ltoks, hp, parenth, flatten_append, flatten, tokStr]
        rw [heq]
        exact hbin
    | divf =>
      have hgf : groupCond (GOp.toOperator GOp.divf) 1 (headPrecG rest) = false := by
        rcases headPrecG_cases rest with hp | hp | hp <;> rw [hp] <;> rfl
      simp only [hgf, Bool.false_eq_true, if_false] at hbin
      have heq : flatten (ltoks (GenExp.node GOp.divf lit rest)) =
          substituteL (GOp.toOperator GOp.divf).latex.data
            [numStrL lit, flatten (ltoks rest)] := by
        rw [show (GOp.toOperator GOp.divf).latex.data =
          ("\\frac\x7b").data ++ placeholder 1 ++ ("\x7d\x7b").data ++ placeholder 2 ++
            [('\x7d')] from rfl]
        rw [substituteL_binary _ _ _ _ _ (by decide) (by decide) (by decide) hdn hdl]
        simp [ltoks, flatten_append, flatten, tokStr]
      rw [heq]
      exact hbin

/-! ## Generator output is generator-shaped -/

theorem getD_default_gop (idx : Nat) (h : idx < 4) :
    ∃ g : GOp, defaultOperators.getD idx dummyOp = GOp.toOperator g := by
  match idx, h with
  | 0, _ => exact ⟨GOp.add, rfl⟩
  | 1, _ => exact ⟨GOp.sub, rfl⟩
  | 2, _ => exact ⟨GOp.mul, rfl⟩
  | 3, _ => exact ⟨GOp.divf, rfl⟩

theorem genLoop_shape (values : List ℚ) :
    ∀ n r e, ∃ e2 : GenExp,
      genLoop defaultOperators values n r (toStack e) 1 = toStack e2 := by
  intro n
  induction n with
  | zero => exact fun r e => ⟨e, rfl⟩
  | succ n ih =>
    intro r e
    set pick := randInt r 0 (defaultOperators.length - 1) with hpick
    have hlt : pick.1 < 4 := by
      have h := randInt_lt r defaultOperators.length (by simp [defaultOperators])
      simpa [defaultOperators] using h
    obtain ⟨g, hg⟩ := getD_default_gop pick.1 hlt
    set o := defaultOperators.getD pick.1 dummyOp with ho
    have hog : o = GOp.toOperator g := ho.trans hg
    have harity : o.arity = 2 := by rw [hog]; exact gop_arity g
    obtain ⟨ws, r2, hpv, hwslen⟩ := pushVals_shape values ((o.arity : Int) - 1).toNat pick.2
    have hneed : ((o.arity : Int) - 1).toNat = 1 := by rw [harity]; rfl
    rw [hneed] at hpv hwslen
    obtain ⟨w1, hws⟩ : ∃ w1, ws = [w1] := by
      cases ws with
      | nil => simp at hwslen
      | cons a l =>
        cases l with
        | nil => exact ⟨a, rfl⟩
        | cons b l2 => simp at hwslen
    subst hws
    have htop : (if (1 : Int) < (o.arity : Int) then (o.arity : Int) else 1) - 1 = 1 := by
      rw [harity]; norm_num
    simp only [genLoop, ← hpick, ← ho, hneed, hpv, htop, List.map]
    rw [hog]
    have hacc : toStack e ++ [Token.num w1] ++ [Token.op (GOp.toOperator g)] =
        toStack (GenExp.node g w1 e) := by
      simp [toStack]
    rw [hacc]
    exact ih r2 (GenExp.node g w1 e)

theorem generateExpression_shape (values : List ℚ) (minOps maxOps : Nat)
    (h1 : 1 ≤ minOps) (r : Rng) :
    ∃ e : GenExp,
      generateExpression defaultOperators minOps maxOps values r = toStack e := by
  have hd : 1 ≤ (randInt r minOps maxOps).1 := by
    simp only [randInt]
    omega
  obtain ⟨m, hm⟩ : ∃ m, (randInt r minOps maxOps).1 = m + 1 :=
    ⟨(randInt r minOps maxOps).1 - 1, by omega⟩
  simp only [generateExpression, hm]
  set r1 := (randInt r minOps maxOps).2 with hr1
  set pick := randInt r1 0 (defaultOperators.length - 1) with hpick
  have hlt : pick.1 < 4 := by
    have h := randInt_lt r1 defaultOperators.length (by simp [defaultOperators])
    simpa [defaultOperators] using h
  obtain ⟨g, hg⟩ := getD_default_gop pick.1 hlt
  set o := defaultOperators.getD pick.1 dummyOp with ho
  have hog : o = GOp.toOperator g := ho.trans hg
  have harity : o.arity = 2 := by rw [hog]; exact gop_arity g
  obtain ⟨ws, r2, hpv, hwslen⟩ := pushVals_shape values ((o.arity : Int) - 0).toNat pick.2
  have hneed : ((o.arity : Int) - 0).toNat = 2 := by rw [harity]; rfl
  rw [hneed] at hpv hwslen
  obtain ⟨w1, w2, hws⟩ : ∃ w1 w2, ws = [w1, w2] := by
    cases ws with
    | nil => simp at hwslen
    | cons a l =>
      cases l with
      | nil => simp at hwslen
      | cons b l2 =>
        cases l2 with
        | nil => exact ⟨a, b, rfl⟩
        | cons c l3 => simp at hwslen
  subst hws
  have htop : (if (0 : Int) < (o.arity : Int) then (o.arity : Int) else 0) - 1 = 1 := by
    rw [harity]; norm_num
  simp only [genLoop, ← hpick, ← ho, hneed, hpv, htop, List.map]
  rw [hog]
  have hacc : ([] : List Token) ++ [Token.num w1, Token.num w2] ++
      [Token.op (GOp.toOperator g)] = toStack (GenExp.node g w2 (GenExp.leaf w1)) := by
    simp [toStack]
  rw [hacc]
  exact genLoop_shape values m r2 (GenExp.node g w2 (GenExp.leaf w1))

/-! ## The rendered markup of a generator-shaped expression parses back to
its value

One induction establishes, for every generator-shaped `e`, how each
production of the reader behaves on `ltoks e` followed by a chain-ending
token: atoms parse atoms, `\times`-loop continuations multiply into the
accumulator, `+`/`-`-loop continuations add or subtract into it, and a
whole expression parses to `evalG e`.  The fuel bounds are linear in the
token count. -/

theorem parse_ltoks (e : GenExp) :
    (∀ fuel zs, isAtomG e = true → isStop zs = true →
      3 * (ltoks e).length + 3 ≤ fuel →
      parseP fuel PK.atom (ltoks e ++ zs) = some (evalG e, zs)) ∧
    (∀ acc fuel zs, headPrecG e ≠ 5 → isStop zs = true →
      3 * (ltoks e).length + 16 ≤ fuel →
      parseP fuel (PK.termLoop acc) (LTok.times :: (ltoks e ++ zs)) =
        some (acc * evalG e, zs)) ∧
    (∀ fuel zs, headPrecG e ≠ 5 → isStop zs = true →
      3 * (ltoks e).length + 16 ≤ fuel →
      parseP fuel PK.term (ltoks e ++ zs) = some (evalG e, zs)) ∧
    (∀ fuel zs, isStop zs = true →
      3 * (ltoks e).length + 17 ≤ fuel →
      parseP fuel PK.expr (ltoks e ++ zs) = some (evalG e, zs)) ∧
    (∀ acc fuel zs, isStop zs = true →
      3 * (ltoks e).length + 17 ≤ fuel →
      parseP fuel (PK.exprLoop acc) (LTok.plus :: (ltoks e ++ zs)) =
        some (acc + evalG e, zs)) ∧
    (∀ acc fuel zs, isStop zs = true →
      3 * (ltoks e).length + 20 ≤ fuel →
      parseP fuel (PK.exprLoop acc)
        (LTok.minus :: ((if headPrecG e ≠ 0 then parenth (ltoks e) else ltoks e) ++ zs)) =
        some (acc - evalG e, zs)) := by
  induction e with
  | leaf q =>
    have hlen : (ltoks (GenExp.leaf q)).length = 1 := rfl
    have htk : ∀ zs : List LTok, ltoks (GenExp.leaf q) ++ zs = LTok.num q :: zs := by
      intro zs; rfl
    have hv : evalG (GenExp.leaf q) = q := rfl
    refine ⟨?_, ?_, ?_, ?_, ?_, ?_⟩
    · intro fuel zs _ hstop hf
      obtain ⟨f, rfl⟩ : ∃ f, fuel = f + 1 := ⟨fuel - 1, by omega⟩
      rw [htk, hv]
      exact parseP_atom_num f q zs
    · intro acc fuel zs _ hstop hf
      obtain ⟨f, rfl⟩ : ∃ f, fuel = f + 1 := ⟨fuel - 1, by omega⟩
      rw [htk, hv, parseP_termLoop_times]
      obtain ⟨f1, rfl⟩ : ∃ f1, f = f1 + 1 := ⟨f - 1, by omega⟩
      rw [parseP_atom_num]
      dsimp only
      exact parseP_termLoop_stop f1 (acc * q) zs hstop
    · intro fuel zs _ hstop hf
      rw [htk, hv]
      exact parseP_term_num_stop q zs hstop fuel (by omega)
    · intro fuel zs hstop hf
      rw [htk, hv]
      exact parseP_leaf q zs hstop fuel (by omega)
    · intro acc fuel zs hstop hf
      obtain ⟨f, rfl⟩ : ∃ f, fuel = f + 1 := ⟨fuel - 1, by omega⟩
      rw [htk, hv, parseP_exprLoop_plus]
      rw [parseP_term_num_stop q zs hstop f (by omega)]
      dsimp only
      obtain ⟨f1, rfl⟩ : ∃ f1, f = f1 + 1 := ⟨f - 1, by omega⟩
      exact parseP_exprLoop_stop f1 (acc + q) zs hstop
    · intro acc fuel zs hstop hf
      have hif : (if headPrecG (GenExp.leaf q) ≠ 0 then parenth (ltoks (GenExp.leaf q))
          else ltoks (GenExp.leaf q)) = ltoks (GenExp.leaf q) := by
        simp [headPrecG]
      rw [hif, htk, hv]
      obtain ⟨f, rfl⟩ : ∃ f, fuel = f + 1 := ⟨fuel - 1, by omega⟩
      rw [parseP_exprLoop_minus]
      rw [parseP_term_num_stop q zs hstop f (by omega)]
      dsimp only
      obtain ⟨f1, rfl⟩ : ∃ f1, f = f1 + 1 := ⟨f - 1, by omega⟩
      exact parseP_exprLoop_stop f1 (acc - q) zs hstop
  | node g lit rest ih =>
    obtain ⟨ihA, ihB, ihT, ihE, ihC, ihD⟩ := ih
    cases g with
    | add =>
      have hval : evalG (GenExp.node GOp.add lit rest) = lit + evalG rest := rfl
      have htoks : ∀ zs : List LTok, ltoks (GenExp.node GOp.add lit rest) ++ zs =
          LTok.num lit :: LTok.plus :: (ltoks rest ++ zs) := by
        intro zs; simp [ltoks]
      have hlen : (ltoks (GenExp.node GOp.add lit rest)).length =
          (ltoks rest).length + 2 := by
        simp [ltoks]
      have hA : ∀ fuel zs, isAtomG (GenExp.node GOp.add lit rest) = true →
          isStop zs = true → 3 * (ltoks (GenExp.node GOp.add lit rest)).length + 3 ≤ fuel →
          parseP fuel PK.atom (ltoks (GenExp.node GOp.add lit rest) ++ zs) =
            some (evalG (GenExp.node GOp.add lit rest), zs) := by
        intro fuel zs h
        simp [isAtomG] at h
      have hE : ∀ fuel zs, isStop zs = true →
          3 * (ltoks (GenExp.node GOp.add lit rest)).length + 17 ≤ fuel →
          parseP fuel PK.expr (ltoks (GenExp.node GOp.add lit rest) ++ zs) =
            some (evalG (GenExp.node GOp.add lit rest), zs) := by
        intro fuel zs hstop hf
        rw [htoks zs]
        obtain ⟨f, rfl⟩ : ∃ f, fuel = f + 1 := ⟨fuel - 1, by omega⟩
        rw [parseP_expr, parseP_term_num_plus lit (ltoks rest ++ zs) f (by omega)]
        dsimp only
        rw [ihC lit f zs hstop (by omega), hval]
      have hC : ∀ acc fuel zs, isStop zs = true →
          3 * (ltoks (GenExp.node GOp.add lit rest)).length + 17 ≤ fuel →
          parseP fuel (PK.exprLoop acc)
            (LTok.plus :: (ltoks (GenExp.node GOp.add lit rest) ++ zs)) =
            some (acc + evalG (GenExp.node GOp.add lit rest), zs) := by
        intro acc fuel zs hstop hf
        rw [htoks zs]
        obtain ⟨f, rfl⟩ : ∃ f, fuel = f + 1 := ⟨fuel - 1, by omega⟩
        rw [parseP_exprLoop_plus, parseP_term_num_plus lit (ltoks rest ++ zs) f (by omega)]
        dsimp only
        rw [ihC (acc + lit) f zs hstop (by omega), hval, add_assoc]
      have hD : ∀ acc fuel zs, isStop zs = true →
          3 * (ltoks (GenExp.node GOp.add lit rest)).length + 20 ≤ fuel →
          parseP fuel (PK.exprLoop acc)
            (LTok.minus :: ((if headPrecG (GenExp.node GOp.add lit rest) ≠ 0 then
              parenth (ltoks (GenExp.node GOp.add lit rest))
              else ltoks (GenExp.node GOp.add lit rest)) ++ zs)) =
            some (acc - evalG (GenExp.node GOp.add lit rest), zs) := by
        intro acc fuel zs hstop hf
        rw [show (if headPrecG (GenExp.node GOp.add lit rest) ≠ 0 then
            parenth (ltoks (GenExp.node GOp.add lit rest))
            else ltoks (GenExp.node GOp.add lit rest)) =
            parenth (ltoks (GenExp.node GOp.add lit rest)) from rfl]
        rw [show parenth (ltoks (GenExp.node GOp.add lit rest)) ++ zs =
          LTok.lparen :: (ltoks (GenExp.node GOp.add lit rest) ++ (LTok.rparen :: zs))
          by simp [parenth]]
        obtain ⟨f, rfl⟩ : ∃ f, fuel = f + 1 := ⟨fuel - 1, by omega⟩
        rw [parseP_exprLoop_minus]
        obtain ⟨f1, rfl⟩ : ∃ f1, f = f1 + 1 := ⟨f - 1, by omega⟩
        rw [parseP_term]
        obtain ⟨f2, rfl⟩ : ∃ f2, f1 = f2 + 1 := ⟨f1 - 1, by omega⟩
        rw [parseP_atom_lparen]
        rw [hE f2 (LTok.rparen :: zs) rfl (by omega)]
        dsimp only
        rw [parseP_termLoop_stop f2 (evalG (GenExp.node GOp.add lit rest)) zs hstop]
        dsimp only
        rw [parseP_exprLoop_stop (f2 + 1)
          (acc - evalG (GenExp.node GOp.add lit rest)) zs hstop]
      exact ⟨hA, fun _ _ _ h _ _ => absurd rfl h, fun _ _ h _ _ => absurd rfl h,
        hE, hC, hD⟩
    | sub =>
      have hval : evalG (GenExp.node GOp.sub lit rest) = lit - evalG rest := rfl
      have htoks : ∀ zs : List LTok, ltoks (GenExp.node GOp.sub lit rest) ++ zs =
          LTok.num lit :: LTok.minus ::
            ((if headPrecG rest ≠ 0 then parenth (ltoks rest) else ltoks rest) ++ zs) := by
        intro zs; simp [ltoks]
      have hlen : (ltoks rest).length + 2 ≤ (ltoks (GenExp.node GOp.sub lit rest)).length ∧
          (ltoks (GenExp.node GOp.sub lit rest)).length ≤ (ltoks rest).length + 4 := by
        simp only [ltoks]
        split <;> simp [parenth] <;> omega
      have hA : ∀ fuel zs, isAtomG (GenExp.node GOp.sub lit rest) = true →
          isStop zs = true → 3 * (ltoks (GenExp.node GOp.sub lit rest)).length + 3 ≤ fuel →
          parseP fuel PK.atom (ltoks (GenExp.node GOp.sub lit rest) ++ zs) =
            some (evalG (GenExp.node GOp.sub lit rest), zs) := by
        intro fuel zs h
        simp [isAtomG] at h
      have hE : ∀ fuel zs, isStop zs = true →
          3 * (ltoks (GenExp.node GOp.sub lit rest)).length + 17 ≤ fuel →
          parseP fuel PK.expr (ltoks (GenExp.node GOp.sub lit rest) ++ zs) =
            some (evalG (GenExp.node GOp.sub lit rest), zs) := by
        intro fuel zs hstop hf
        rw [htoks zs]
        obtain ⟨f, rfl⟩ : ∃ f, fuel = f + 1 := ⟨fuel - 1, by omega⟩
        rw [parseP_expr, parseP_term_num_minus lit _ f (by omega)]
        dsimp only
        rw [ihD lit f zs hstop (by omega), hval]
      have hC : ∀ acc fuel zs, isStop zs = true →
          3 * (ltoks (GenExp.node GOp.sub lit rest)).length + 17 ≤ fuel →
          parseP fuel (PK.exprLoop acc)
            (LTok.plus :: (ltoks (GenExp.node GOp.sub lit rest) ++ zs)) =
            some (acc + evalG (GenExp.node GOp.sub lit rest), zs) := by
        intro acc fuel zs hstop hf
        rw [htoks zs]
        obtain ⟨f, rfl⟩ : ∃ f, fuel = f + 1 := ⟨fuel - 1, by omega⟩
        rw [parseP_exprLoop_plus, parseP_term_num_minus lit _ f (by omega)]
        dsimp only
        rw [ihD (acc + lit) f zs hstop (by omega), hval, add_sub_assoc]
      have hD : ∀ acc fuel zs, isStop zs = true →
          3 * (ltoks (GenExp.node GOp.sub lit rest)).length + 20 ≤ fuel →
          parseP fuel (PK.exprLoop acc)
            (LTok.minus :: ((if headPrecG (GenExp.node GOp.sub lit rest) ≠ 0 then
              parenth (ltoks (GenExp.node GOp.sub lit rest))
              else ltoks (GenExp.node GOp.sub lit rest)) ++ zs)) =
            some (acc - evalG (GenExp.node GOp.sub lit rest), zs) := by
        intro acc fuel zs hstop hf
        rw [show (if headPrecG (GenExp.node GOp.sub lit rest) ≠ 0 then
            parenth (ltoks (GenExp.node GOp.sub lit rest))
            else ltoks (GenExp.node GOp.sub lit rest)) =
            parenth (ltoks (GenExp.node GOp.sub lit rest)) from rfl]
        rw [show parenth (ltoks (GenExp.node GOp.sub lit rest)) ++ zs =
          LTok.lparen :: (ltoks (GenExp.node GOp.sub lit rest) ++ (LTok.rparen :: zs))
          by simp [parenth]]
        obtain ⟨f, rfl⟩ : ∃ f, fuel = f + 1 := ⟨fuel - 1, by omega⟩
        rw [parseP_exprLoop_minus]
        obtain ⟨f1, rfl⟩ : ∃ f1, f = f1 + 1 := ⟨f - 1, by omega⟩
        rw [parseP_term]
        obtain ⟨f2, rfl⟩ : ∃ f2, f1 = f2 + 1 := ⟨f1 - 1, by omega⟩
        rw [parseP_atom_lparen]
        rw [hE f2 (LTok.rparen :: zs) rfl (by omega)]
        dsimp only
        rw [parseP_termLoop_stop f2 (evalG (GenExp.node GOp.sub lit rest)) zs hstop]
        dsimp only
        rw [parseP_exprLoop_stop (f2 + 1)
          (acc - evalG (GenExp.node GOp.sub lit rest)) zs hstop]
      exact ⟨hA, fun _ _ _ h _ _ => absurd rfl h, fun _ _ h _ _ => absurd rfl h,
        hE, hC, hD⟩
    | mul =>
      have hval : evalG (GenExp.node GOp.mul lit rest) = lit * evalG rest := rfl
      have htoks : ∀ zs : List LTok, ltoks (GenExp.node GOp.mul lit rest) ++ zs =
          LTok.num lit :: LTok.times ::
            ((if 3 < headPrecG rest then parenth (ltoks rest) else ltoks rest) ++ zs) := by
        intro zs; simp [ltoks]
      have hlen : (ltoks rest).length + 2 ≤ (ltoks (GenExp.node GOp.mul lit rest)).length ∧
          (ltoks (GenExp.node GOp.mul lit rest)).length ≤ (ltoks rest).length + 4 := by
        simp only [ltoks]
        split <;> simp [parenth] <;> omega
      have hA : ∀ fuel zs, isAtomG (GenExp.node GOp.mul lit rest) = true →
          isStop zs = true → 3 * (ltoks (GenExp.node GOp.mul lit rest)).length + 3 ≤ fuel →
          parseP fuel PK.atom (ltoks (GenExp.node GOp.mul lit rest) ++ zs) =
            some (evalG (GenExp.node GOp.mul lit rest), zs) := by
        intro fuel zs h
        simp [isAtomG] at h
      have hcont : ∀ acc fuel zs, isStop zs = true →
          3 * (ltoks rest).length + 19 ≤ fuel →
          parseP fuel (PK.termLoop acc)
            (LTok.times :: ((if 3 < headPrecG rest then parenth (ltoks rest)
              else ltoks rest) ++ zs)) = some (acc * evalG rest, zs) := by
        intro acc fuel zs hstop hf
        rcases headPrecG_cases rest with hp | hp | hp
        · rw [show (if 3 < headPrecG rest then parenth (ltoks rest) else ltoks rest) =
            ltoks rest by simp [hp]]
          exact ihB acc fuel zs (by omega) hstop (by omega)
        · rw [show (if 3 < headPrecG rest then parenth (ltoks rest) else ltoks rest) =
            ltoks rest by simp [hp]]
          exact ihB acc fuel zs (by omega) hstop (by omega)
        · rw [show (if 3 < headPrecG rest then parenth (ltoks rest) else ltoks rest) =
            parenth (ltoks rest) by simp [hp]]
          rw [show parenth (ltoks rest) ++ zs =
            LTok.lparen :: (ltoks rest ++ (LTok.rparen :: zs)) by simp [parenth]]
          obtain ⟨f, rfl⟩ : ∃ f, fuel = f + 1 := ⟨fuel - 1, by omega⟩
          rw [parseP_termLoop_times]
          obtain ⟨f1, rfl⟩ : ∃ f1, f = f1 + 1 := ⟨f - 1, by omega⟩
          rw [parseP_atom_lparen]
          rw [ihE f1 (LTok.rparen :: zs) rfl (by omega)]
          dsimp only
          rw [parseP_termLoop_stop f1 (acc * evalG rest) zs hstop]
      have hB : ∀ acc fuel zs, headPrecG (GenExp.node GOp.mul lit rest) ≠ 5 →
          isStop zs = true →
          3 * (ltoks (GenExp.node GOp.mul lit rest)).length + 16 ≤ fuel →
          parseP fuel (PK.termLoop acc)
            (LTok.times :: (ltoks (GenExp.node GOp.mul lit rest) ++ zs)) =
            some (acc * evalG (GenExp.node GOp.mul lit rest), zs) := by
        intro acc fuel zs _ hstop hf
        rw [htoks zs]
        obtain ⟨f, rfl⟩ : ∃ f, fuel = f + 1 := ⟨fuel - 1, by omega⟩
        rw [parseP_termLoop_times]
        obtain ⟨f1, rfl⟩ : ∃ f1, f = f1 + 1 := ⟨f - 1, by omega⟩
        rw [parseP_atom_num]
        dsimp only
        rw [hcont (acc * lit) (f1 + 1) zs hstop (by omega), hval, mul_assoc]
      have hT : ∀ fuel zs, headPrecG (GenExp.node GOp.mul lit rest) ≠ 5 →
          isStop zs = true →
          3 * (ltoks (GenExp.node GOp.mul lit rest)).length + 16 ≤ fuel →
          parseP fuel PK.term (ltoks (GenExp.node GOp.mul lit rest) ++ zs) =
            some (evalG (GenExp.node GOp.mul lit rest), zs) := by
        intro fuel zs _ hstop hf
        rw [htoks zs]
        obtain ⟨f, rfl⟩ : ∃ f, fuel = f + 1 := ⟨fuel - 1, by omega⟩
        rw [parseP_term]
        obtain ⟨f1, rfl⟩ : ∃ f1, f = f1 + 1 := ⟨f - 1, by omega⟩
        rw [parseP_atom_num]
        dsimp only
        rw [hcont lit (f1 + 1) zs hstop (by omega), hval]
      have hE : ∀ fuel zs, isStop zs = true →
          3 * (ltoks (GenExp.node GOp.mul lit rest)).length + 17 ≤ fuel →
          parseP fuel PK.expr (ltoks (GenExp.node GOp.mul lit rest) ++ zs) =
            some (evalG (GenExp.node GOp.mul lit rest), zs) := by
        intro fuel zs hstop hf
        obtain ⟨f, rfl⟩ : ∃ f, fuel = f + 1 := ⟨fuel - 1, by omega⟩
        rw [parseP_expr, hT f zs (by show (3 : Nat) ≠ 5; omega) hstop (by omega)]
        dsimp only
        obtain ⟨f1, rfl⟩ : ∃ f1, f = f1 + 1 := ⟨f - 1, by omega⟩
        exact parseP_exprLoop_stop f1 (evalG (GenExp.node GOp.mul lit rest)) zs hstop
      have hC : ∀ acc fuel zs, isStop zs = true →
          3 * (ltoks (GenExp.node GOp.mul lit rest)).length + 17 ≤ fuel →
          parseP fuel (PK.exprLoop acc)
            (LTok.plus :: (ltoks (GenExp.node GOp.mul lit rest) ++ zs)) =
            some (acc + evalG (GenExp.node GOp.mul lit rest), zs) := by
        intro acc fuel zs hstop hf
        obtain ⟨f, rfl⟩ : ∃ f, fuel = f + 1 := ⟨fuel - 1, by omega⟩
        rw [parseP_exprLoop_plus, hT f zs (by show (3 : Nat) ≠ 5; omega) hstop (by omega)]
        dsimp only
        obtain ⟨f1, rfl⟩ : ∃ f1, f = f1 + 1 := ⟨f - 1, by omega⟩
        exact parseP_exprLoop_stop f1 (acc + evalG (GenExp.node GOp.mul lit rest)) zs hstop
      have hD : ∀ acc fuel zs, isStop zs = true →
          3 * (ltoks (GenExp.node GOp.mul lit rest)).length + 20 ≤ fuel →
          parseP fuel (PK.exprLoop acc)
            (LTok.minus :: ((if headPrecG (GenExp.node GOp.mul lit rest) ≠ 0 then
              parenth (ltoks (GenExp.node GOp.mul lit rest))
              else ltoks (GenExp.node GOp.mul lit rest)) ++ zs)) =
            some (acc - evalG (GenExp.node GOp.mul lit rest), zs) := by
        intro acc fuel zs hstop hf
        rw [show (if headPrecG (GenExp.node GOp.mul lit rest) ≠ 0 then
            parenth (ltoks (GenExp.node GOp.mul lit rest))
            else ltoks (GenExp.node GOp.mul lit rest)) =
            parenth (ltoks (GenExp.node GOp.mul lit rest)) from rfl]
        rw [show parenth (ltoks (GenExp.node GOp.mul lit rest)) ++ zs =
          LTok.lparen :: (ltoks (GenExp.node GOp.mul lit rest) ++ (LTok.rparen :: zs))
          by simp [parenth]]
        obtain ⟨f, rfl⟩ : ∃ f, fuel = f + 1 := ⟨fuel - 1, by omega⟩
        rw [parseP_exprLoop_minus]
        obtain ⟨f1, rfl⟩ : ∃ f1, f = f1 + 1 := ⟨f - 1, by omega⟩
        rw [parseP_term]
        obtain ⟨f2, rfl⟩ : ∃ f2, f1 = f2 + 1 := ⟨f1 - 1, by omega⟩
        rw [parseP_atom_lparen]
        rw [hE f2 (LTok.rparen :: zs) rfl (by omega)]
        dsimp only
        rw [parseP_termLoop_stop f2 (evalG (GenExp.node GOp.mul lit rest)) zs hstop]
        dsimp only
        rw [parseP_exprLoop_stop (f2 + 1)
          (acc - evalG (GenExp.node GOp.mul lit rest)) zs hstop]
      exact ⟨hA, hB, hT, hE, hC, hD⟩
    | divf =>
      have hval : evalG (GenExp.node GOp.divf lit rest) = lit / evalG rest := rfl
      have htoks : ∀ zs : List LTok, ltoks (GenExp.node GOp.divf lit rest) ++ zs =
          LTok.fracT :: LTok.lbrace :: (LTok.num lit :: LTok.rbrace :: LTok.lbrace ::
            (ltoks rest ++ (LTok.rbrace :: zs))) := by
        intro zs; simp [ltoks]
      have hlen : (ltoks (GenExp.node GOp.divf lit rest)).length =
          (ltoks rest).length + 6 := by
        simp [ltoks]
      have hA : ∀ fuel zs, isAtomG (GenExp.node GOp.divf lit rest) = true →
          isStop zs = true →
          3 * (ltoks (GenExp.node GOp.divf lit rest)).length + 3 ≤ fuel →
          parseP fuel PK.atom (ltoks (GenExp.node GOp.divf lit rest) ++ zs) =
            some (evalG (GenExp.node GOp.divf lit rest), zs) := by
        intro fuel zs _ hstop hf
        rw [htoks zs]
        obtain ⟨f, rfl⟩ : ∃ f, fuel = f + 1 := ⟨fuel - 1, by omega⟩
        rw [parseP_atom_frac]
        rw [parseP_leaf lit (LTok.rbrace :: LTok.lbrace ::
          (ltoks rest ++ (LTok.rbrace :: zs))) rfl f (by omega)]
        dsimp only
        rw [ihE f (LTok.rbrace :: zs) rfl (by omega)]
        dsimp only
        rw [hval]
      have hB : ∀ acc fuel zs, headPrecG (GenExp.node GOp.divf lit rest) ≠ 5 →
          isStop zs = true →
          3 * (ltoks (GenExp.node GOp.divf lit rest)).length + 16 ≤ fuel →
          parseP fuel (PK.termLoop acc)
            (LTok.times :: (ltoks (GenExp.node GOp.divf lit rest) ++ zs)) =
            some (acc * evalG (GenExp.node GOp.divf lit rest), zs) := by
        intro acc fuel zs _ hstop hf
        obtain ⟨f, rfl⟩ : ∃ f, fuel = f + 1 := ⟨fuel - 1, by omega⟩
        rw [parseP_termLoop_times]
        rw [hA f zs rfl hstop (by omega)]
        dsimp only
        obtain ⟨f1, rfl⟩ : ∃ f1, f = f1 + 1 := ⟨f - 1, by omega⟩
        exact parseP_termLoop_stop f1 (acc * evalG (GenExp.node GOp.divf lit rest)) zs hstop
      have hT : ∀ fuel zs, headPrecG (GenExp.node GOp.divf lit rest) ≠ 5 →
          isStop zs = true →
          3 * (ltoks (GenExp.node GOp.divf lit rest)).length + 16 ≤ fuel →
          parseP fuel PK.term (ltoks (GenExp.node GOp.divf lit rest) ++ zs) =
            some (evalG (GenExp.node GOp.divf lit rest), zs) := by
        intro fuel zs _ hstop hf
        obtain ⟨f, rfl⟩ : ∃ f, fuel = f + 1 := ⟨fuel - 1, by omega⟩
        rw [parseP_term]
        rw [hA f zs rfl hstop (by omega)]
        dsimp only
        obtain ⟨f1, rfl⟩ : ∃ f1, f = f1 + 1 := ⟨f - 1, by omega⟩
        exact parseP_termLoop_stop f1 (evalG (GenExp.node GOp.divf lit rest)) zs hstop
      have hE : ∀ fuel zs, isStop zs = true →
          3 * (ltoks (GenExp.node GOp.divf lit rest)).length + 17 ≤ fuel →
          parseP fuel PK.expr (ltoks (GenExp.node GOp.divf lit rest) ++ zs) =
            some (evalG (GenExp.node GOp.divf lit rest), zs) := by
        intro fuel zs hstop hf
        obtain ⟨f, rfl⟩ : ∃ f, fuel = f + 1 := ⟨fuel - 1, by omega⟩
        rw [parseP_expr, hT f zs (by show (3 : Nat) ≠ 5; omega) hstop (by omega)]
        dsimp only
        obtain ⟨f1, rfl⟩ : ∃ f1, f = f1 + 1 := ⟨f - 1, by omega⟩
        exact parseP_exprLoop_stop f1 (evalG (GenExp.node GOp.divf lit rest)) zs hstop
      have hC : ∀ acc fuel zs, isStop zs = true →
          3 * (ltoks (GenExp.node GOp.divf lit rest)).length + 17 ≤ fuel →
          parseP fuel (PK.exprLoop acc)
            (LTok.plus :: (ltoks (GenExp.node GOp.divf lit rest) ++ zs)) =
            some (acc + evalG (GenExp.node GOp.divf lit rest), zs) := by
        intro acc fuel zs hstop hf
        obtain ⟨f, rfl⟩ : ∃ f, fuel = f + 1 := ⟨fuel - 1, by omega⟩
        rw [parseP_exprLoop_plus, hT f zs (by show (3 : Nat) ≠ 5; omega) hstop (by omega)]
        dsimp only
        obtain ⟨f1, rfl⟩ : ∃ f1, f = f1 + 1 := ⟨f - 1, by omega⟩
        exact parseP_exprLoop_stop f1 (acc + evalG (GenExp.node GOp.divf lit rest)) zs hstop
      have hD : ∀ acc fuel zs, isStop zs = true →
          3 * (ltoks (GenExp.node GOp.divf lit rest)).length + 20 ≤ fuel →
          parseP fuel (PK.exprLoop acc)
            (LTok.minus :: ((if headPrecG (GenExp.node GOp.divf lit rest) ≠ 0 then
              parenth (ltoks (GenExp.node GOp.divf lit rest))
              else ltoks (GenExp.node GOp.divf lit rest)) ++ zs)) =
            some (acc - evalG (GenExp.node GOp.divf lit rest), zs) := by
        intro acc fuel zs hstop hf
        rw [show (if headPrecG (GenExp.node GOp.divf lit rest) ≠ 0 then
            parenth (ltoks (GenExp.node GOp.divf lit rest))
            else ltoks (GenExp.node GOp.divf lit rest)) =
            parenth (ltoks (GenExp.node GOp.divf lit rest)) from rfl]
        rw [show parenth (ltoks (GenExp.node GOp.divf lit rest)) ++ zs =
          LTok.lparen :: (ltoks (GenExp.node GOp.divf lit rest) ++ (LTok.rparen :: zs))
          by simp [parenth]]
        obtain ⟨f, rfl⟩ : ∃ f, fuel = f + 1 := ⟨fuel - 1, by omega⟩
        rw [parseP_exprLoop_minus]
        obtain ⟨f1, rfl⟩ : ∃ f1, f = f1 + 1 := ⟨f - 1, by omega⟩
        rw [parseP_term]
        obtain ⟨f2, rfl⟩ : ∃ f2, f1 = f2 + 1 := ⟨f1 - 1, by omega⟩
        rw [parseP_atom_lparen]
        rw [hE f2 (LTok.rparen :: zs) rfl (by omega)]
        dsimp only
        rw [parseP_termLoop_stop f2 (evalG (GenExp.node GOp.divf lit rest)) zs hstop]
        dsimp only
        rw [parseP_exprLoop_stop (f2 + 1)
          (acc - evalG (GenExp.node GOp.divf lit rest)) zs hstop]
      exact ⟨hA, hB, hT, hE, hC, hD⟩

/-- Claim C2 (counterexample): the stack `[3, 1, 2, +, ×]` is well-formed
and built from the default registry, but it is not generator-reachable:
the multiplication's first-popped operand is the addition subtree.
`solve` computes `(2 + 1) × 3 = 9` while `latex` renders `2 + 1 \times 3`
(the first operand position is never parenthesized), which reads as
`2 + (1 × 3) = 5` under standard precedence. -/
theorem c2_counterexample :
    wellFormedB mixedStack = true ∧
    (mixedStack = [Token.num 3, Token.num 1, Token.num 2, Token.op addOp,
      Token.op mulOp]) ∧
    latex 9 mixedStack = some ((("2 + 1 \\times 3") : String).data, []) ∧
    flatten mixedToks = (("2 + 1 \\times 3") : String).data ∧
    interp 30 mixedToks = some 5 ∧
    solve 9 mixedStack = some (9, []) ∧
    (5 : ℚ) ≠ 9 := by
  refine ⟨rfl, rfl, rfl, rfl, ?_, ?_, by norm_num⟩
  · have h : interp 30 mixedToks = some ((2 : ℚ) + 1 * 3) := rfl
    rw [h]
    norm_num
  · have h : solve 9 mixedStack = some (((2 : ℚ) + 1) * 3, []) := rfl
    rw [h]
    norm_num

/-- Claim C2 (amended): for every expression stack that `generateExpression`
can return over the default four-operator registry (with
`1 ≤ minOps ≤ maxOps` and a non-empty pool, over every random stream),
`solve` fully consumes the stack and yields a value `v`, `latex` fully
consumes an identical copy and produces a string which is the flattening
of a markup-token sequence `ts`, and interpreting `ts` under standard
arithmetic precedence (with the parentheses `latex` inserted) yields
exactly `v`. -/
theorem c2_amended (minOps maxOps : Nat) (values : List ℚ) (r : Rng)
    (h1 : 1 ≤ minOps) (hmm : minOps ≤ maxOps) (hv : values ≠ []) :
    ∃ (v : ℚ) (ts : List LTok),
      solve (generateExpression defaultOperators minOps maxOps values r).length
        (generateExpression defaultOperators minOps maxOps values r) = some (v, []) ∧
      latex (generateExpression defaultOperators minOps maxOps values r).length
        (generateExpression defaultOperators minOps maxOps values r) =
        some (flatten ts, []) ∧
      interp (3 * ts.length + 17) ts = some v := by
  obtain ⟨e, he⟩ := generateExpression_shape values minOps maxOps h1 r
  refine ⟨evalG e, ltoks e, ?_, ?_, ?_⟩
  · rw [he]
    have h := solvesTo_toStack e [] (toStack e).length le_rfl
    simpa using h
  · rw [he]
    have h := rendersTo_toStack e [] (toStack e).length le_rfl
    simpa using h
  · have hp := (parse_ltoks e).2.2.2.1 (3 * (ltoks e).length + 17) [] rfl le_rfl
    simp only [List.append_nil] at hp
    simp [interp, hp]

/-- Witness for C2 (amended) with `minOps = maxOps = 1`, pool `[2]` and
the all-zeros stream. -/
theorem c2_amended_witness :
    ∃ (v : ℚ) (ts : List LTok),
      solve (generateExpression defaultOperators 1 1 [2] zeroRng).length
        (generateExpression defaultOperators 1 1 [2] zeroRng) = some (v, []) ∧
      latex (generateExpression defaultOperators 1 1 [2] zeroRng).length
        (generateExpression defaultOperators 1 1 [2] zeroRng) =
        some (flatten ts, []) ∧
      interp (3 * ts.length + 17) ts = some v :=
  c2_amended 1 1 [2] zeroRng le_rfl le_rfl (by simp)

end MathCaptcha
